import Mathlib

/-!
Shallow embedding of the Random Quotes game state machine
(`backend/app/services/game.py` and `backend/app/models/game.py`).

Python dicts are modelled as insertion-ordered association lists
(`Dict α`), matching CPython semantics: lookup returns the first
binding, assignment replaces an existing binding in place and appends
a fresh one at the end.  Timestamps (`datetime.now`) and random draws
(`random.sample`, `random.choice`, uuid generation) are modelled as
explicit oracle parameters of the operations that consume them.
Functions that raise `ValueError` are modelled with `Except GameError`.
-/

namespace RandomQuotes

/-- Python `dict[str, α]` as an insertion-ordered association list. -/
abbrev Dict (α : Type) : Type := List (String × α)

/-- Python `d.get(k)` / `d[k]`: first binding wins. -/
def dictGet {α : Type} : Dict α → String → Option α
  | [], _ => none
  | (k', v) :: rest, k => if k' = k then some v else dictGet rest k

/-- Python `k in d`. -/
def dictContains {α : Type} (d : Dict α) (k : String) : Bool :=
  (dictGet d k).isSome

/-- Python `{**d, k: v}` / `d[k] = v`: replace in place, else append. -/
def dictSet {α : Type} : Dict α → String → α → Dict α
  | [], k, v => [(k, v)]
  | (k', v') :: rest, k, v =>
      if k' = k then (k, v) :: rest else (k', v') :: dictSet rest k v

/-- Python `list(d.keys())`. -/
def dictKeys {α : Type} (d : Dict α) : List String := d.map (·.1)

/-- Python `list(d.values())`. -/
def dictValues {α : Type} (d : Dict α) : List α := d.map (·.2)

/-- `GamePhase` enum from `models/game.py`. -/
inductive GamePhase
  | LOBBY
  | ROUND_SUBMISSION
  | ROUND_JUDGING
  | ROUND_RESULTS
  | GAME_OVER
deriving DecidableEq, Repr, Inhabited

/-- `Player` model.  Scores are Python ints, hence `Int`. -/
structure Player where
  id : String
  nickname : String
  score : Int := 0
  is_host : Bool := false
  is_connected : Bool := true
  is_bot : Bool := false
  word_tiles : List String := []
deriving DecidableEq, Repr, Inhabited

/--`Prompt` model; the uuid is an oracle input. -/
structure Prompt where
  id : String
  text : String
deriving DecidableEq, Repr, Inhabited

/-- `Submission` model; `submitted_at` is a `datetime`, modelled as `Nat`. -/
structure Submission where
  player_id : String
  tiles_used : List String
  response_text : String
  submitted_at : Nat
deriving DecidableEq, Repr, Inhabited

/-- `Round` model (`started_at` omitted: no game-logic operation reads it). -/
structure Round where
  round_number : Nat
  prompt : Prompt
  judge_id : Option String := none
  submissions : Dict Submission := []
  winner_id : Option String := none
  judge_picked_self : Bool := false
  overrule_votes : Dict Bool := []
  winner_votes : Dict String := []
  overruled : Bool := false
deriving DecidableEq, Repr, Inhabited

/-- `GameConfig` model (timer fields omitted: no game-logic operation reads them). -/
structure GameConfig where
  tiles_per_player : Nat := 45
  points_to_win : Nat := 5
  min_players : Nat := 2
  max_players : Nat := 8
deriving DecidableEq, Repr, Inhabited

/-- `Game` model (`chat_history` omitted: no game-logic operation reads it). -/
structure Game where
  id : String
  invite_code : String
  phase : GamePhase := .LOBBY
  players : Dict Player := []
  current_round : Option Round := none
  round_history : List Round := []
  config : GameConfig := {}
  created_at : Nat := 0
  word_pool : List String := []
  prompts_pool : List Prompt := []
  used_prompt_ids : List String := []
deriving DecidableEq, Repr, Inhabited

/-- The distinct `ValueError` conditions raised by `services/game.py`. -/
inductive GameError
  | WrongPhase
  | NoActiveRound
  | UnknownPlayer
  | GameFull
  | DuplicateNickname
  | NotEnoughPlayers
  | AlreadySubmitted
  | TileNotOwned
  | InvalidWinner
  | AlreadyVoted
  | VoterIsJudge
  | OverruleNotAvailable
  | NotEnoughPlayersForOverrule
  | NotOverruled
  | CannotVoteForJudge
  | InvalidTileOrder
  | InternalError
deriving DecidableEq, Repr, Inhabited

/-- `create_player`; the uuid is the `id` oracle input. -/
def create_player (id nickname : String) (is_host : Bool) : Player :=
  { id := id, nickname := nickname, is_host := is_host }

/-- `create_game`; game id and invite code are oracle inputs. -/
def create_game (game_id invite_code host_id host_nickname : String)
    (config : GameConfig) : Game × Player :=
  let host := create_player host_id host_nickname true
  ({ id := game_id, invite_code := invite_code, phase := .LOBBY,
     players := [(host.id, host)], config := config }, host)

/-- Python `str.strip()`: drop whitespace from both ends (modelled
character-wise so the kernel can evaluate it). -/
def pyStrip (s : String) : String :=
  String.mk
    (((s.data.dropWhile Char.isWhitespace).reverse.dropWhile
      Char.isWhitespace).reverse)

/-- Python `str.lower()` (ASCII case folding, modelled character-wise
so the kernel can evaluate it). -/
def pyLower (s : String) : String :=
  String.mk (s.data.map Char.toLower)

/-- `is_nickname_taken`: `nickname.strip().lower()` comparison. -/
def is_nickname_taken (g : Game) (nickname : String) : Bool :=
  g.players.any fun kp =>
    pyLower (pyStrip kp.2.nickname) = pyLower (pyStrip nickname)

/-- `add_player_to_game`; the new player's uuid is the `new_id` oracle input. -/
def add_player_to_game (g : Game) (new_id nickname : String) :
    Except GameError (Game × Player) :=
  if g.phase ≠ .LOBBY then .error .WrongPhase
  else if g.config.max_players ≤ g.players.length then .error .GameFull
  else if is_nickname_taken g nickname then .error .DuplicateNickname
  else
    let p := create_player new_id nickname false
    .ok ({ g with players := dictSet g.players new_id p }, p)

/-- `distribute_tiles`; the random draws are the `draw` oracle
(one tile list per player id). -/
def distribute_tiles (g : Game) (words : List String)
    (draw : String → List String) : Game :=
  { g with
    players := g.players.map fun kp => (kp.1, { kp.2 with word_tiles := draw kp.1 }),
    word_pool := words }

/-- `select_next_prompt`; `random.choice` is the `pick` oracle index. -/
def select_next_prompt (g : Game) (pick : Nat) : Option Prompt :=
  let available := g.prompts_pool.filter fun p => !(g.used_prompt_ids.contains p.id)
  available.get? (pick % available.length)

/-- Lexicographic code-point comparison on character lists — the order
Python's `sorted` uses on `str` (modelled character-wise so the kernel
can evaluate it). -/
def lexLe : List Char → List Char → Bool
  | [], _ => true
  | _ :: _, [] => false
  | x :: xs, y :: ys =>
      if x.toNat < y.toNat then true
      else if y.toNat < x.toNat then false
      else lexLe xs ys

/-- Python `s1 <= s2` on strings. -/
def strLe (a b : String) : Bool := lexLe a.data b.data

/-- `get_player_ids_in_order`: `sorted(game.players.keys())`. -/
def get_player_ids_in_order (g : Game) : List String :=
  List.insertionSort (fun a b => strLe a b = true) (dictKeys g.players)

/-- `select_judge`; `none` models the `ZeroDivisionError` on an empty
player dict (`% 0`). -/
def select_judge (g : Game) : Option String :=
  let player_ids := get_player_ids_in_order g
  let round_number := g.round_history.length + 1
  player_ids.get? ((round_number - 1) % player_ids.length)

/-- `start_new_round`. -/
def start_new_round (g : Game) (pick : Nat) : Game :=
  match select_next_prompt g pick with
  | none => { g with phase := .GAME_OVER }
  | some prompt =>
      let new_round : Round :=
        { round_number := g.round_history.length + 1, prompt := prompt }
      { g with
        phase := .ROUND_SUBMISSION,
        current_round := some new_round,
        used_prompt_ids := g.used_prompt_ids ++ [prompt.id] }

/-- `create_prompts_pool` composed into `start_game`; the prompt records
(with their uuids) are an oracle input. -/
def start_game (g : Game) (words : List String) (prompts : List Prompt)
    (draw : String → List String) (pick : Nat) : Except GameError Game :=
  if g.phase ≠ .LOBBY then .error .WrongPhase
  else if g.players.length < g.config.min_players then .error .NotEnoughPlayers
  else
    let g1 := distribute_tiles g words draw
    let g2 := { g1 with prompts_pool := prompts }
    .ok (start_new_round g2 pick)

/-- `submit_response`; `datetime.now` is the `now` oracle input. -/
def submit_response (g : Game) (player_id : String) (tiles_used : List String)
    (now : Nat) : Except GameError Game :=
  if g.phase ≠ .ROUND_SUBMISSION then .error .WrongPhase
  else
    match g.current_round with
    | none => .error .NoActiveRound
    | some round =>
        if dictContains round.submissions player_id then .error .AlreadySubmitted
        else
          match dictGet g.players player_id with
          | none => .error .UnknownPlayer
          | some player =>
              if tiles_used.all (fun t => player.word_tiles.contains t) then
                let submission : Submission :=
                  { player_id := player_id,
                    tiles_used := tiles_used,
                    response_text := String.intercalate " " tiles_used,
                    submitted_at := now }
                let updated_round :=
                  { round with
                    submissions := dictSet round.submissions player_id submission }
                let remaining :=
                  player.word_tiles.filter fun t => !(tiles_used.contains t)
                let updated_player := { player with word_tiles := remaining }
                .ok { g with
                      current_round := some updated_round,
                      players := dictSet g.players player_id updated_player }
              else .error .TileNotOwned

/-- `all_submissions_in`. -/
def all_submissions_in (g : Game) : Bool :=
  match g.current_round with
  | none => false
  | some r => decide (g.players.length ≤ r.submissions.length)

/-- `advance_to_judging`. -/
def advance_to_judging (g : Game) : Except GameError Game :=
  if g.phase ≠ .ROUND_SUBMISSION then .error .WrongPhase
  else
    match g.current_round with
    | none => .error .NoActiveRound
    | some round =>
        match select_judge g with
        | none => .error .InternalError
        | some judge_id =>
            .ok { g with
                  phase := .ROUND_JUDGING,
                  current_round := some { round with judge_id := some judge_id } }

/-- `check_game_over`. -/
def check_game_over (g : Game) : Bool :=
  g.players.any fun kp => decide ((g.config.points_to_win : Int) ≤ kp.2.score)

/-- `select_winner`. -/
def select_winner (g : Game) (winner_id : String) : Except GameError Game :=
  if g.phase ≠ .ROUND_JUDGING then .error .WrongPhase
  else
    match g.current_round with
    | none => .error .NoActiveRound
    | some round =>
        if !(dictContains round.submissions winner_id) then .error .InvalidWinner
        else
          let judge_picked_self : Bool := decide (round.judge_id = some winner_id)
          let updated_round :=
            { round with
              winner_id := some winner_id,
              judge_picked_self := judge_picked_self }
          match dictGet g.players winner_id with
          | none => .error .UnknownPlayer
          | some winner =>
              let updated_winner := { winner with score := winner.score + 1 }
              let updated_game :=
                { g with
                  current_round := some updated_round,
                  players := dictSet g.players winner_id updated_winner }
              if check_game_over updated_game then
                .ok { updated_game with
                      round_history := updated_game.round_history ++ [updated_round],
                      phase := .GAME_OVER }
              else
                .ok { updated_game with phase := .ROUND_RESULTS }

/-- `get_winner`. -/
def get_winner (g : Game) : Option Player :=
  (g.players.find? fun kp =>
    decide ((g.config.points_to_win : Int) ≤ kp.2.score)).map (·.2)

/-- `restart_game`. -/
def restart_game (g : Game) : Except GameError Game :=
  if g.phase ≠ .GAME_OVER then .error .WrongPhase
  else
    .ok { g with
          phase := .LOBBY,
          players := g.players.map fun kp =>
            (kp.1, { kp.2 with score := 0, word_tiles := [] }),
          current_round := none,
          round_history := [] }

/-- `replenish_tiles`; the random draws are the `draw` oracle
(one replacement tile list per player id). -/
def replenish_tiles (g : Game) (draw : String → List String) : Game :=
  { g with
    players := g.players.map fun kp =>
      (kp.1,
        if kp.2.word_tiles.length < g.config.tiles_per_player then
          { kp.2 with word_tiles := kp.2.word_tiles ++ draw kp.1 }
        else kp.2) }

/-- `advance_round`. -/
def advance_round (g : Game) (draw : String → List String) (pick : Nat) :
    Except GameError Game :=
  if g.phase ≠ .ROUND_RESULTS then .error .WrongPhase
  else
    match g.current_round with
    | none => .error .NoActiveRound
    | some round =>
        let g1 := { g with round_history := g.round_history ++ [round] }
        if check_game_over g1 then .ok { g1 with phase := .GAME_OVER }
        else .ok (start_new_round (replenish_tiles g1 draw) pick)

/-- `reorder_player_tiles`. -/
def reorder_player_tiles (g : Game) (player_id : String)
    (tile_order : List String) : Except GameError Game :=
  match dictGet g.players player_id with
  | none => .error .UnknownPlayer
  | some player =>
      if List.insertionSort (fun a b => strLe a b = true) tile_order =
          List.insertionSort (fun a b => strLe a b = true) player.word_tiles then
        .ok { g with
              players := dictSet g.players player_id
                { player with word_tiles := tile_order } }
      else .error .InvalidTileOrder

/-- `get_non_judge_player_ids`. -/
def get_non_judge_player_ids (g : Game) : List String :=
  match g.current_round with
  | none => dictKeys g.players
  | some r =>
      match r.judge_id with
      | none => dictKeys g.players
      | some judge_id =>
          (dictKeys g.players).filter fun pid => decide (pid ≠ judge_id)

/-- `can_cast_overrule_vote`. -/
def can_cast_overrule_vote (g : Game) : Bool :=
  match g.current_round with
  | none => false
  | some r =>
      decide (g.phase = .ROUND_RESULTS) && r.judge_picked_self &&
        decide (3 ≤ g.players.length) && !r.overruled

/-- `can_cast_winner_vote`. -/
def can_cast_winner_vote (g : Game) : Bool :=
  match g.current_round with
  | none => false
  | some r =>
      decide (g.phase = .ROUND_RESULTS) && r.overruled && r.winner_id.isNone

/-- `cast_overrule_vote`. -/
def cast_overrule_vote (g : Game) (player_id : String) (vote_to_overrule : Bool) :
    Except GameError Game :=
  if g.phase ≠ .ROUND_RESULTS then .error .WrongPhase
  else
    match g.current_round with
    | none => .error .NoActiveRound
    | some round =>
        if !round.judge_picked_self then .error .OverruleNotAvailable
        else if g.players.length < 3 then .error .NotEnoughPlayersForOverrule
        else if round.judge_id = some player_id then .error .VoterIsJudge
        else if !(dictContains g.players player_id) then .error .UnknownPlayer
        else if dictContains round.overrule_votes player_id then .error .AlreadyVoted
        else
          let updated_votes := dictSet round.overrule_votes player_id vote_to_overrule
          let updated_round := { round with overrule_votes := updated_votes }
          let updated_game := { g with current_round := some updated_round }
          let non_judge_players := get_non_judge_player_ids g
          if updated_votes.length = non_judge_players.length then
            if (dictValues updated_votes).all (fun b => b) then
              match round.judge_id with
              | none => .error .InternalError
              | some judge_id =>
                  match dictGet updated_game.players judge_id with
                  | none => .error .UnknownPlayer
                  | some judge =>
                      let updated_judge := { judge with score := judge.score - 1 }
                      let final_round :=
                        { updated_round with overruled := true, winner_id := none }
                      .ok { updated_game with
                            current_round := some final_round,
                            players :=
                              dictSet updated_game.players judge_id updated_judge }
            else .ok updated_game
          else .ok updated_game

/-- The `vote_counts` accumulation loop in `determine_voted_winner`. -/
def voteCounts (votes : Dict String) : Dict Nat :=
  votes.foldl (fun counts kv =>
    dictSet counts kv.2 ((dictGet counts kv.2).getD 0 + 1)) []

/-- Python `max` over a list of naturals (the list is nonempty at every
call site; `0` stands for the unreachable empty case). -/
def maxNat (l : List Nat) : Nat := l.foldl max 0

/-- Python `min(l, key=key)`: the first element attaining the minimal key. -/
def minByFirst {α : Type} (key : α → Nat) : List α → Option α
  | [] => none
  | x :: xs => some (xs.foldl (fun best a => if key a < key best then a else best) x)

/-- The `submitted_at` timestamp used as the tie-break key (`0` stands
for the unreachable missing-submission case, a `KeyError` in Python). -/
def submittedAtOf (round : Round) (pid : String) : Nat :=
  ((dictGet round.submissions pid).map Submission.submitted_at).getD 0

/-- The `top_candidates` list of `determine_voted_winner`: entries of
`vote_counts` holding the maximal count, in insertion order. -/
def topCandidates (round : Round) : List String :=
  ((voteCounts round.winner_votes).filter fun kv =>
    decide (kv.2 = maxNat (dictValues (voteCounts round.winner_votes)))).map (·.1)

/-- The winner-id computation of `determine_voted_winner`:
plurality over `winner_votes`, ties broken by earliest `submitted_at`.
`none` models the `ValueError`/`KeyError`/`IndexError` paths. -/
def pluralityWinner (round : Round) : Option String :=
  match voteCounts round.winner_votes with
  | [] => none
  | _ :: _ =>
      if 1 < (topCandidates round).length then
        if (topCandidates round).all (fun pid => dictContains round.submissions pid) then
          minByFirst (submittedAtOf round) (topCandidates round)
        else none
      else (topCandidates round).head?

/-- `determine_voted_winner`. -/
def determine_voted_winner (g : Game) : Except GameError Game :=
  match g.current_round with
  | none => .error .NoActiveRound
  | some round =>
      match pluralityWinner round with
      | none => .error .InternalError
      | some winner_id =>
          match dictGet g.players winner_id with
          | none => .error .UnknownPlayer
          | some winner =>
              let updated_winner := { winner with score := winner.score + 1 }
              .ok { g with
                    current_round := some { round with winner_id := some winner_id },
                    players := dictSet g.players winner_id updated_winner }

/-- `cast_winner_vote`. -/
def cast_winner_vote (g : Game) (voter_id winner_id : String) :
    Except GameError Game :=
  if g.phase ≠ .ROUND_RESULTS then .error .WrongPhase
  else
    match g.current_round with
    | none => .error .NoActiveRound
    | some round =>
        if !round.overruled then .error .NotOverruled
        else if round.judge_id = some voter_id then .error .VoterIsJudge
        else if !(dictContains g.players voter_id) then .error .UnknownPlayer
        else if dictContains round.winner_votes voter_id then .error .AlreadyVoted
        else if !(dictContains round.submissions winner_id) then .error .InvalidWinner
        else if round.judge_id = some winner_id then .error .CannotVoteForJudge
        else
          let updated_votes := dictSet round.winner_votes voter_id winner_id
          let updated_round := { round with winner_votes := updated_votes }
          let updated_game := { g with current_round := some updated_round }
          let non_judge_players := get_non_judge_player_ids g
          if updated_votes.length = non_judge_players.length then
            determine_voted_winner updated_game
          else .ok updated_game

/-- The orchestration layer's read-modify-write cycle for `submit`
(`api/routes.py` catches the `ValueError` and skips `save_game`, so the
stored snapshot is kept unchanged on failure). -/
def apply_submit (g : Game) (player_id : String) (tiles_used : List String)
    (now : Nat) : Game :=
  match submit_response g player_id tiles_used now with
  | .ok g' => g'
  | .error _ => g

/-- Modelled from the spec (§4.1 `submit`): the removal the spec's words
describe — "removes exactly those tile occurrences from the player's
hand (first-match removal per duplicate, not all matching occurrences)".
Compared against the source's filter-based removal. -/
def removeFirstOccurrences (tiles_used : List String) (hand : List String) :
    List String :=
  tiles_used.foldl (fun h t => h.erase t) hand

/-- Extract the success payload of a transition (used only to name
concrete states in witnesses and counterexamples). -/
def forceOk (e : Except GameError Game) : Game :=
  match e with
  | .ok g => g
  | .error _ => default

/-- The state-machine operations of spec §4.1, as a reachability
predicate.  Nondeterministic inputs (uuids, random draws, prompt picks,
wall-clock times) are existentially quantified oracle arguments; fresh
uuids never collide with existing player ids. -/
inductive Reachable : Game → Prop
  | create (game_id invite_code host_id host_nickname : String)
      (config : GameConfig) :
      Reachable (create_game game_id invite_code host_id host_nickname config).1
  | join (g : Game) (new_id nickname : String) (gp : Game × Player) :
      Reachable g → dictGet g.players new_id = none →
      add_player_to_game g new_id nickname = .ok gp → Reachable gp.1
  | start (g : Game) (words : List String) (prompts : List Prompt)
      (draw : String → List String) (pick : Nat) (g' : Game) :
      Reachable g → start_game g words prompts draw pick = .ok g' → Reachable g'
  | submit (g : Game) (pid : String) (tiles : List String) (now : Nat) (g' : Game) :
      Reachable g → submit_response g pid tiles now = .ok g' → Reachable g'
  | judging (g : Game) (g' : Game) :
      Reachable g → advance_to_judging g = .ok g' → Reachable g'
  | winner (g : Game) (wid : String) (g' : Game) :
      Reachable g → select_winner g wid = .ok g' → Reachable g'
  | overruleVote (g : Game) (pid : String) (vote : Bool) (g' : Game) :
      Reachable g → cast_overrule_vote g pid vote = .ok g' → Reachable g'
  | winnerVote (g : Game) (voter wid : String) (g' : Game) :
      Reachable g → cast_winner_vote g voter wid = .ok g' → Reachable g'
  | advance (g : Game) (draw : String → List String) (pick : Nat) (g' : Game) :
      Reachable g → advance_round g draw pick = .ok g' → Reachable g'
  | restart (g : Game) (g' : Game) :
      Reachable g → restart_game g = .ok g' → Reachable g'
  | reorder (g : Game) (pid : String) (order : List String) (g' : Game) :
      Reachable g → reorder_player_tiles g pid order = .ok g' → Reachable g'

/-! ### Invariant predicates over game snapshots -/

/-- Every player's score is non-negative. -/
def ScoresNonneg (g : Game) : Prop := ∀ kp ∈ g.players, 0 ≤ (kp.2).score

/-- Player ids (dict keys) are distinct, as in a Python dict. -/
def PlayersNodup (g : Game) : Prop := (dictKeys g.players).Nodup

/-- During submission and judging the round carries no results-phase
state yet: no overrule votes, not overruled, no self-pick flag. -/
def RoundPristine (g : Game) : Prop :=
  g.phase = .ROUND_SUBMISSION ∨ g.phase = .ROUND_JUDGING →
    ∀ r, g.current_round = some r →
      r.overrule_votes = [] ∧ r.overruled = false ∧ r.judge_picked_self = false

/-- In results phase, a not-yet-overruled self-pick implies the judge
holds the point just granted by `select_winner`. -/
def JudgeScorePos (g : Game) : Prop :=
  g.phase = .ROUND_RESULTS →
    ∀ r, g.current_round = some r →
      r.judge_picked_self = true → r.overruled = false →
      ∃ j judge, r.judge_id = some j ∧ dictGet g.players j = some judge ∧
        1 ≤ judge.score

/-- An overruled round has a complete overrule ballot: every non-judge
player has voted. -/
def OverruledAllVoted (g : Game) : Prop :=
  g.phase = .ROUND_RESULTS →
    ∀ r, g.current_round = some r → r.overruled = true →
      ∀ pid ∈ dictKeys g.players, r.judge_id ≠ some pid →
        dictContains r.overrule_votes pid = true

/-- Overrule ballots are well-formed: distinct voters, all of them
known non-judge players. -/
def OverruleVotesWF (g : Game) : Prop :=
  ∀ r, g.current_round = some r →
    (dictKeys r.overrule_votes).Nodup ∧
    ∀ pid ∈ dictKeys r.overrule_votes,
      pid ∈ dictKeys g.players ∧ r.judge_id ≠ some pid

/-- Outside GAME_OVER, the active round is numbered one past the
archive.  (The GAME_OVER exception is forced by `select_winner` and
`advance_round`, which archive the round while keeping `current_round`.) -/
def RoundNumberConsistent (g : Game) : Prop :=
  g.phase ≠ .GAME_OVER →
    ∀ r, g.current_round = some r →
      r.round_number = g.round_history.length + 1

/-- The inductive invariant carried through every reachable state. -/
def Inv (g : Game) : Prop :=
  PlayersNodup g ∧ ScoresNonneg g ∧ RoundPristine g ∧ JudgeScorePos g ∧
    OverruledAllVoted g ∧ OverruleVotesWF g ∧ RoundNumberConsistent g

/-- The Submission record built by `submit_response` (named here only
to keep theorem statements readable). -/
def mkSubmission (pid : String) (tiles : List String) (now : Nat) : Submission :=
  { player_id := pid, tiles_used := tiles,
    response_text := String.intercalate " " tiles, submitted_at := now }

/-! ### Concrete fixtures used by witnesses and counterexamples -/

/-- Success payload of a `join` transition (fixture plumbing only). -/
def joinedPair (e : Except GameError (Game × Player)) : Game × Player :=
  match e with
  | .ok gp => gp
  | .error _ => default

def c1Round : Round := { round_number := 1, prompt := { id := "p1", text := "Q1" } }

def c1Player : Player :=
  { id := "p1", nickname := "Ann", word_tiles := ["alpha", "alpha", "beta"] }

def c1Game : Game :=
  { id := "g1", invite_code := "AAAAAA", phase := .ROUND_SUBMISSION,
    players := [("p1", c1Player)],
    current_round := some c1Round }

def c2Config : GameConfig :=
  { tiles_per_player := 1, points_to_win := 1, min_players := 2, max_players := 8 }

def c2G0 : Game := (create_game "game-2" "ABCDEF" "a" "Alice" c2Config).1

def c2Join : Game × Player := joinedPair (add_player_to_game c2G0 "b" "Bob")

def c2G1 : Game := c2Join.1

def c2G2 : Game :=
  forceOk (start_game c2G1 ["wa"] [{ id := "pr1", text := "Prompt" }]
    (fun _ => ["wa"]) 0)

def c2G3 : Game := forceOk (submit_response c2G2 "b" ["wa"] 0)

def c2G4 : Game := forceOk (advance_to_judging c2G3)

def c2G5 : Game := forceOk (select_winner c2G4 "b")

def c3Round : Round :=
  { round_number := 1, prompt := { id := "p3", text := "Q3" },
    judge_id := some "a",
    submissions := [("a", { player_id := "a", tiles_used := ["x"],
                            response_text := "x", submitted_at := 0 }),
      ("b", { player_id := "b", tiles_used := ["y"],
              response_text := "y", submitted_at := 1 })] }

def c3PlayerB : Player := { id := "b", nickname := "Bob", score := 0 }

def c3Game : Game :=
  { id := "g3", invite_code := "CCCCCC", phase := .ROUND_JUDGING,
    players := [("a", { id := "a", nickname := "Ann", score := 0 }),
      ("b", c3PlayerB)],
    current_round := some c3Round,
    config := { points_to_win := 1 } }

def c4Round : Round :=
  { round_number := 1, prompt := { id := "p4", text := "Q4" },
    judge_id := some "a", winner_id := some "a", judge_picked_self := true,
    overrule_votes := [("b", true)] }

def c4PlayerA : Player := { id := "a", nickname := "Ann", score := 1 }

def c4Game : Game :=
  { id := "g4", invite_code := "DDDDDD", phase := .ROUND_RESULTS,
    players := [("a", c4PlayerA),
      ("b", { id := "b", nickname := "Bob" }),
      ("c", { id := "c", nickname := "Cam" })],
    current_round := some c4Round }

def c5Round : Round :=
  { round_number := 1, prompt := { id := "p5", text := "Q5" },
    judge_id := some "a", winner_id := none, judge_picked_self := true,
    overruled := true,
    overrule_votes := [("b", true), ("c", true), ("d", true)],
    winner_votes := [("b", "c"), ("c", "c")],
    submissions := [("b", { player_id := "b", tiles_used := ["t1"],
                            response_text := "t1", submitted_at := 10 }),
      ("c", { player_id := "c", tiles_used := ["t2"],
              response_text := "t2", submitted_at := 5 }),
      ("d", { player_id := "d", tiles_used := ["t3"],
              response_text := "t3", submitted_at := 7 })] }

def c5PlayerC : Player := { id := "c", nickname := "Cam" }

def c5Game : Game :=
  { id := "g5", invite_code := "EEEEEE", phase := .ROUND_RESULTS,
    players := [("a", { id := "a", nickname := "Ann" }),
      ("b", { id := "b", nickname := "Bob" }),
      ("c", c5PlayerC),
      ("d", { id := "d", nickname := "Dee" })],
    current_round := some c5Round }

def c6Round : Round :=
  { round_number := 1, prompt := { id := "p6", text := "Q6" },
    judge_id := some "a", winner_id := none, judge_picked_self := true,
    overruled := true,
    winner_votes := [("b", "b")],
    submissions := [("b", { player_id := "b", tiles_used := ["u1"],
                            response_text := "u1", submitted_at := 1 }),
      ("c", { player_id := "c", tiles_used := ["u2"],
              response_text := "u2", submitted_at := 2 })] }

def c6Game : Game :=
  { id := "g6", invite_code := "FFFFFF", phase := .ROUND_RESULTS,
    players := [("a", { id := "a", nickname := "Ann", score := 0 }),
      ("b", { id := "b", nickname := "Bob", score := 0 }),
      ("c", { id := "c", nickname := "Cam", score := 0 })],
    current_round := some c6Round,
    config := { points_to_win := 1 } }

def c6Final : Game := forceOk (cast_winner_vote c6Game "c" "b")

def c7Round : Round := { round_number := 1, prompt := { id := "p7", text := "Q7" } }

def c7Game : Game :=
  { id := "g7", invite_code := "GGGGGG", phase := .ROUND_SUBMISSION,
    players := [("a", { id := "a", nickname := "Ann" }),
      ("b", { id := "b", nickname := "Bob" })],
    current_round := some c7Round }

def c7Game2 : Game := { c7Game with round_history := [c7Round] }

def c8Round : Round :=
  { round_number := 1, prompt := { id := "p8", text := "Q8" },
    submissions := [("p1", { player_id := "p1", tiles_used := ["x"],
                             response_text := "x", submitted_at := 0 })] }

def c8Game : Game :=
  { id := "g8", invite_code := "HHHHHH", phase := .ROUND_SUBMISSION,
    players := [("p1", { id := "p1", nickname := "Ann", word_tiles := ["y"] })],
    current_round := some c8Round }

def c10Round : Round := { round_number := 1, prompt := { id := "pA", text := "QA" } }

def c10Player : Player := { id := "p1", nickname := "Ann", word_tiles := ["x", "y"] }

def c10Game : Game :=
  { id := "gA", invite_code := "JJJJJJ", phase := .ROUND_SUBMISSION,
    players := [("p1", c10Player)],
    current_round := some c10Round }

/-! ### Association-list dictionary lemmas -/

theorem dictGet_dictSet_self {α : Type} (d : Dict α) (k : String) (v : α) :
    dictGet (dictSet d k v) k = some v := by
  induction d with
  | nil => simp [dictSet, dictGet]
  | cons kp rest ih =>
      obtain ⟨a, b⟩ := kp
      by_cases h : a = k
      · simp [dictSet, dictGet, h]
      · simp [dictSet, dictGet, h, ih]

theorem dictGet_dictSet_ne {α : Type} (d : Dict α) (k k' : String) (v : α)
    (h : k' ≠ k) : dictGet (dictSet d k v) k' = dictGet d k' := by
  induction d with
  | nil =>
      simp only [dictSet, dictGet]
      rw [if_neg (Ne.symm h)]
  | cons kp rest ih =>
      obtain ⟨a, b⟩ := kp
      simp only [dictSet]
      by_cases ha : a = k
      · subst ha
        rw [if_pos rfl]
        simp only [dictGet]
        rw [if_neg (Ne.symm h), if_neg (Ne.symm h)]
      · rw [if_neg ha]
        simp only [dictGet]
        by_cases ha' : a = k'
        · rw [if_pos ha', if_pos ha']
        · rw [if_neg ha', if_neg ha', ih]

theorem dictContains_eq_false_iff {α : Type} {d : Dict α} {k : String} :
    dictContains d k = false ↔ dictGet d k = none := by
  cases h : dictGet d k <;> simp [dictContains, h]

theorem dictContains_eq_true_iff {α : Type} {d : Dict α} {k : String} :
    dictContains d k = true ↔ ∃ v, dictGet d k = some v := by
  cases h : dictGet d k <;> simp [dictContains, h]

theorem dictGet_eq_none_iff {α : Type} {d : Dict α} {k : String} :
    dictGet d k = none ↔ k ∉ dictKeys d := by
  induction d with
  | nil => simp [dictGet, dictKeys]
  | cons kp rest ih =>
      obtain ⟨a, b⟩ := kp
      by_cases h : a = k
      · subst h
        simp [dictGet, dictKeys]
      · simp only [dictGet, if_neg h, ih, dictKeys, List.map_cons, List.mem_cons]
        constructor
        · intro hk hor
          rcases hor with h1 | h1
          · exact h h1.symm
          · exact hk h1
        · intro hk h1
          exact hk (Or.inr h1)

theorem dictGet_some_mem {α : Type} {d : Dict α} {k : String} {v : α}
    (h : dictGet d k = some v) : (k, v) ∈ d := by
  induction d with
  | nil => simp [dictGet] at h
  | cons kp rest ih =>
      obtain ⟨a, b⟩ := kp
      by_cases ha : a = k
      · subst ha
        simp [dictGet] at h
        simp [h]
      · simp [dictGet, ha] at h
        exact List.mem_cons_of_mem _ (ih h)

theorem mem_dictSet {α : Type} {d : Dict α} {k : String} {v : α}
    {kp : String × α} (h : kp ∈ dictSet d k v) : kp ∈ d ∨ kp = (k, v) := by
  induction d with
  | nil =>
      simp only [dictSet] at h
      exact Or.inr (List.mem_singleton.mp h)
  | cons hd rest ih =>
      obtain ⟨a, b⟩ := hd
      by_cases ha : a = k
      · subst ha
        simp [dictSet] at h
        rcases h with h | h
        · exact Or.inr h
        · exact Or.inl (List.mem_cons_of_mem _ h)
      · simp [dictSet, ha] at h
        rcases h with h | h
        · exact Or.inl (by simp [h])
        · rcases ih h with h' | h'
          · exact Or.inl (List.mem_cons_of_mem _ h')
          · exact Or.inr h'

theorem self_mem_dictSet {α : Type} (d : Dict α) (k : String) (v : α) :
    (k, v) ∈ dictSet d k v := by
  induction d with
  | nil => simp [dictSet]
  | cons hd rest ih =>
      obtain ⟨a, b⟩ := hd
      by_cases ha : a = k
      · simp [dictSet, ha]
      · simp only [dictSet, if_neg ha]
        exact List.mem_cons_of_mem _ ih

theorem dictKeys_dictSet_fresh {α : Type} {d : Dict α} {k : String} (v : α)
    (h : dictGet d k = none) : dictKeys (dictSet d k v) = dictKeys d ++ [k] := by
  induction d with
  | nil => simp [dictSet, dictKeys]
  | cons hd rest ih =>
      obtain ⟨a, b⟩ := hd
      by_cases ha : a = k
      · simp [dictGet, ha] at h
      · simp [dictGet, ha] at h
        simp [dictSet, dictKeys, ha] at ih ⊢
        exact ih h

theorem dictKeys_dictSet_mem {α : Type} {d : Dict α} {k : String} (v : α)
    (h : k ∈ dictKeys d) : dictKeys (dictSet d k v) = dictKeys d := by
  induction d with
  | nil => simp [dictKeys] at h
  | cons hd rest ih =>
      obtain ⟨a, b⟩ := hd
      by_cases ha : a = k
      · simp [dictSet, dictKeys, ha]
      · have h' : k ∈ dictKeys rest := by
          simp only [dictKeys, List.map_cons, List.mem_cons] at h
          rcases h with h1 | h1
          · exact absurd h1.symm ha
          · exact h1
        simp only [dictSet, if_neg ha, dictKeys, List.map_cons, List.cons.injEq]
        exact ⟨trivial, ih h'⟩

theorem length_dictSet_fresh {α : Type} {d : Dict α} {k : String} (v : α)
    (h : dictGet d k = none) : (dictSet d k v).length = d.length + 1 := by
  induction d with
  | nil => simp [dictSet]
  | cons hd rest ih =>
      obtain ⟨a, b⟩ := hd
      by_cases ha : a = k
      · simp [dictGet, ha] at h
      · simp [dictGet, ha] at h
        simp [dictSet, ha, ih h]

theorem nodup_dictKeys_dictSet {α : Type} {d : Dict α} {k : String} (v : α)
    (h : (dictKeys d).Nodup) : (dictKeys (dictSet d k v)).Nodup := by
  by_cases hk : k ∈ dictKeys d
  · rw [dictKeys_dictSet_mem v hk]; exact h
  · rw [dictKeys_dictSet_fresh v (dictGet_eq_none_iff.mpr hk)]
    simp [List.nodup_append, h, hk]

theorem dictSet_eq_self {α : Type} {d : Dict α} {k : String} {v : α}
    (h : dictGet d k = some v) : dictSet d k v = d := by
  induction d with
  | nil => simp [dictGet] at h
  | cons hd rest ih =>
      obtain ⟨a, b⟩ := hd
      by_cases ha : a = k
      · subst ha
        simp [dictGet] at h
        simp [dictSet, h]
      · simp [dictGet, ha] at h
        simp [dictSet, ha, ih h]

theorem dictGet_map {α β : Type} (d : Dict α) (f : String → α → β) (k : String) :
    dictGet (d.map fun kp => (kp.1, f kp.1 kp.2)) k = (dictGet d k).map (f k) := by
  induction d with
  | nil => simp [dictGet]
  | cons hd rest ih =>
      obtain ⟨a, b⟩ := hd
      by_cases ha : a = k
      · subst ha; simp [dictGet]
      · simp [dictGet, ha, ih]

theorem dictKeys_map {α β : Type} (d : Dict α) (f : String → α → β) :
    dictKeys (d.map fun kp => (kp.1, f kp.1 kp.2)) = dictKeys d := by
  simp [dictKeys, List.map_map, Function.comp]

/-! ### Helper lemmas for Python `max` and keyed `min` -/

theorem le_foldl_max (l : List Nat) (a : Nat) : a ≤ l.foldl max a := by
  induction l generalizing a with
  | nil => simp
  | cons x xs ih => exact le_trans (le_max_left a x) (ih (max a x))

theorem le_maxNat_of_mem {l : List Nat} {v : Nat} (h : v ∈ l) : v ≤ maxNat l := by
  unfold maxNat
  generalize 0 = a
  induction l generalizing a with
  | nil => simp at h
  | cons x xs ih =>
      rcases List.mem_cons.mp h with h' | h'
      · subst h'
        exact le_trans (le_max_right a v) (le_foldl_max xs (max a v))
      · exact ih h' (max a x)

theorem maxNat_le {l : List Nat} {m : Nat} (h : ∀ v ∈ l, v ≤ m) : maxNat l ≤ m := by
  unfold maxNat
  have key : ∀ (l' : List Nat) (a : Nat), a ≤ m → (∀ v ∈ l', v ≤ m) →
      l'.foldl max a ≤ m := by
    intro l'
    induction l' with
    | nil => intro a ha _; simpa using ha
    | cons x xs ih =>
        intro a ha hall
        simp only [List.foldl_cons]
        exact ih (max a x) (max_le ha (hall x (List.mem_cons_self x xs)))
          (fun v hv => hall v (List.mem_cons_of_mem _ hv))
  exact key l 0 (Nat.zero_le m) h

theorem foldl_minBy_eq {α : Type} (key : α → Nat) (xs : List α) (x c : α)
    (hc : c ∈ x :: xs)
    (hmin : ∀ y ∈ x :: xs, y ≠ c → key c < key y) :
    xs.foldl (fun best a => if key a < key best then a else best) x = c := by
  induction xs generalizing x with
  | nil =>
      simp only [List.foldl_nil]
      rcases List.mem_cons.mp hc with h | h
      · exact h.symm
      · simp at h
  | cons a as ih =>
      simp only [List.foldl_cons]
      by_cases hcx : c = x
      · subst hcx
        have hacc : (if key a < key c then a else c) = c := by
          by_cases hac : a = c
          · simp [hac]
          · have := hmin a (by simp) hac
            rw [if_neg (by omega)]
        rw [hacc]
        refine ih c (List.mem_cons_self c as) ?_
        intro y hy hne
        exact hmin y (by rcases List.mem_cons.mp hy with h | h <;> simp [h]) hne
      · have hkx : key c < key x := hmin x (by simp) (fun hh => hcx hh.symm)
        have hcmem : c ∈ a :: as := by
          rcases List.mem_cons.mp hc with h | h
          · exact absurd h hcx
          · exact h
        by_cases hca : c = a
        · subst hca
          rw [if_pos hkx]
          refine ih c (List.mem_cons_self c as) ?_
          intro y hy hne
          exact hmin y (by rcases List.mem_cons.mp hy with h | h <;> simp [h]) hne
        · have hka : key c < key a := hmin a (by simp) (fun hh => hca hh.symm)
          have hcas : c ∈ as := by
            rcases List.mem_cons.mp hcmem with h | h
            · exact absurd h hca
            · exact h
          set acc := if key a < key x then a else x with hacc
          have hkacc : key c < key acc := by
            rw [hacc]; split <;> assumption
          have haccne : acc ≠ c := fun hh => by
            rw [hh] at hkacc; omega
          refine ih acc (List.mem_cons_of_mem _ hcas) ?_
          intro y hy hne
          rcases List.mem_cons.mp hy with h | h
          · rw [h]; exact hkacc
          · exact hmin y (by simp [h]) hne

theorem minByFirst_eq_of_strict_min {α : Type} (key : α → Nat) (l : List α)
    (c : α) (hc : c ∈ l) (hmin : ∀ y ∈ l, y ≠ c → key c < key y) :
    minByFirst key l = some c := by
  cases l with
  | nil => simp at hc
  | cons x xs =>
      simp only [minByFirst, Option.some.injEq]
      exact foldl_minBy_eq key xs x c hc hmin

/-! ### Successful-submission shape (shared helper) -/

/-- Shape of a successful `submit_response`: the recorded submission
and the filter-based hand update, exactly as built by the source. -/
theorem submit_response_ok (g : Game) (r : Round) (pid : String)
    (tiles : List String) (now : Nat) (p : Player)
    (hphase : g.phase = .ROUND_SUBMISSION)
    (hr : g.current_round = some r)
    (hfresh : dictContains r.submissions pid = false)
    (hp : dictGet g.players pid = some p)
    (hown : tiles.all (fun t => p.word_tiles.contains t) = true) :
    submit_response g pid tiles now = .ok
      { g with
        current_round :=
          some { r with
                 submissions := dictSet r.submissions pid (mkSubmission pid tiles now) },
        players :=
          dictSet g.players pid
            { p with
              word_tiles := p.word_tiles.filter fun t => !(tiles.contains t) } } := by
  simp only [submit_response, hphase, hr, hfresh, hp, hown]
  simp [mkSubmission]

/-! ### Claim C1: effect of a successful submission -/

/-- C1 (amended).  In ROUND_SUBMISSION with an active round, a known
player who has not yet submitted, and a tiles_used list all of whose
elements are in the player's hand, `submit_response` records a
Submission whose `response_text` is the tiles joined by single spaces
in the given order, and removes from the hand EVERY occurrence of each
submitted tile value (the source filters with `t not in tiles_used`,
so duplicate copies of a submitted value are all removed — not
first-match removal). -/
theorem submit_response_effect (g : Game) (r : Round) (pid : String)
    (tiles : List String) (now : Nat) (p : Player)
    (hphase : g.phase = .ROUND_SUBMISSION)
    (hr : g.current_round = some r)
    (hfresh : dictContains r.submissions pid = false)
    (hp : dictGet g.players pid = some p)
    (hown : tiles.all (fun t => p.word_tiles.contains t) = true) :
    submit_response g pid tiles now = .ok
      { g with
        current_round :=
          some { r with
                 submissions := dictSet r.submissions pid (mkSubmission pid tiles now) },
        players :=
          dictSet g.players pid
            { p with
              word_tiles := p.word_tiles.filter fun t => !(tiles.contains t) } } :=
  submit_response_ok g r pid tiles now p hphase hr hfresh hp hown

/-- Witness for C1's theorem at a concrete game: player `p1` holds
`["alpha", "alpha", "beta"]` and submits `["alpha"]`. -/
theorem submit_response_effect_witness :
    submit_response c1Game "p1" ["alpha"] 5 = .ok
      { c1Game with
        current_round :=
          some { c1Round with
                 submissions := dictSet c1Round.submissions "p1"
                   (mkSubmission "p1" ["alpha"] 5) },
        players :=
          dictSet c1Game.players "p1"
            { c1Player with
              word_tiles := c1Player.word_tiles.filter
                fun t => !((["alpha"] : List String).contains t) } } :=
  submit_response_effect c1Game c1Round "p1" ["alpha"] 5 c1Player
    rfl rfl rfl rfl rfl

/-- C1 counterexample.  With hand `["alpha", "alpha", "beta"]` and
submission `["alpha"]`, the code leaves hand `["beta"]`, whereas the
claimed first-match removal (spec-modelled `removeFirstOccurrences`)
would leave `["alpha", "beta"]`. -/
theorem submit_first_match_removal_refuted :
    submit_response c1Game "p1" ["alpha"] 5 =
      .ok (forceOk (submit_response c1Game "p1" ["alpha"] 5)) ∧
    (dictGet (forceOk (submit_response c1Game "p1" ["alpha"] 5)).players
      "p1").map Player.word_tiles = some ["beta"] ∧
    removeFirstOccurrences ["alpha"] ["alpha", "alpha", "beta"] =
      ["alpha", "beta"] ∧
    (["beta"] : List String) ≠ ["alpha", "beta"] :=
  ⟨rfl, rfl, rfl, by decide⟩

/-! ### Claim C8: failed submissions have no effect -/

/-- C8.  In ROUND_SUBMISSION with an active round: a player with an
existing submission always gets `AlreadySubmitted`; a known fresh
player submitting a tile not in hand always gets `TileNotOwned`; and
every failing `submit_response` leaves the stored snapshot unchanged
(`apply_submit`, the orchestration read-modify-write, keeps the old
game on failure, and the pure transition produced no partial state). -/
theorem submit_failure_atomic (g : Game) (r : Round) (pid : String)
    (tiles : List String) (now : Nat)
    (hphase : g.phase = .ROUND_SUBMISSION)
    (hr : g.current_round = some r) :
    (dictContains r.submissions pid = true →
      submit_response g pid tiles now = .error .AlreadySubmitted ∧
      apply_submit g pid tiles now = g) ∧
    (∀ p, dictContains r.submissions pid = false →
      dictGet g.players pid = some p →
      tiles.all (fun t => p.word_tiles.contains t) = false →
      submit_response g pid tiles now = .error .TileNotOwned ∧
      apply_submit g pid tiles now = g) ∧
    (∀ e, submit_response g pid tiles now = .error e →
      apply_submit g pid tiles now = g) := by
  refine ⟨fun hdup => ?_, fun p hfresh hp hbad => ?_, fun e herr => ?_⟩
  · have h1 : submit_response g pid tiles now = .error .AlreadySubmitted := by
      simp [submit_response, hphase, hr, hdup]
    exact ⟨h1, by simp [apply_submit, h1]⟩
  · have h1 : submit_response g pid tiles now = .error .TileNotOwned := by
      simp only [submit_response, hphase, hr, hfresh, hp, hbad]
      simp
    exact ⟨h1, by simp [apply_submit, h1]⟩
  · simp [apply_submit, herr]

/-- Witness for C8's theorem: `p1` already submitted in `c8Game`, so a
second submission fails with `AlreadySubmitted` and the snapshot kept
by the orchestration is exactly `c8Game`. -/
theorem submit_failure_atomic_witness :
    submit_response c8Game "p1" ["y"] 3 = .error .AlreadySubmitted ∧
    apply_submit c8Game "p1" ["y"] 3 = c8Game :=
  (submit_failure_atomic c8Game c8Round "p1" ["y"] 3 rfl rfl).1 rfl

/-! ### Claim C10: empty submissions are accepted -/

/-- C10.  In ROUND_SUBMISSION with an active round and a known player
who has not yet submitted, submitting an empty tiles list succeeds: it
records a Submission with `tiles_used = []` and `response_text = ""`,
leaves the whole player map (hence the hand) unchanged, and the
submission counts toward `all_submissions_in`. -/
theorem submit_empty_tiles (g : Game) (r : Round) (pid : String) (now : Nat)
    (p : Player)
    (hphase : g.phase = .ROUND_SUBMISSION)
    (hr : g.current_round = some r)
    (hfresh : dictContains r.submissions pid = false)
    (hp : dictGet g.players pid = some p) :
    submit_response g pid [] now = .ok
      { g with
        current_round :=
          some { r with
                 submissions := dictSet r.submissions pid
                   { player_id := pid, tiles_used := [], response_text := "",
                     submitted_at := now } } } ∧
    all_submissions_in (forceOk (submit_response g pid [] now)) =
      decide (g.players.length ≤ r.submissions.length + 1) := by
  have hfilter :
      (p.word_tiles.filter fun t => !(([] : List String).contains t)) =
        p.word_tiles := by
    simp
  have hplayers :
      dictSet g.players pid
        { p with word_tiles :=
            p.word_tiles.filter fun t => !(([] : List String).contains t) } =
        g.players := by
    rw [hfilter]
    exact dictSet_eq_self hp
  have h1 : submit_response g pid [] now = .ok
      { g with
        current_round :=
          some { r with
                 submissions := dictSet r.submissions pid
                   { player_id := pid, tiles_used := [], response_text := "",
                     submitted_at := now } } } := by
    have hbase := submit_response_ok g r pid [] now p hphase hr hfresh hp rfl
    rw [hplayers] at hbase
    exact hbase
  refine ⟨h1, ?_⟩
  rw [h1]
  simp [all_submissions_in, forceOk,
    length_dictSet_fresh _ (dictContains_eq_false_iff.mp hfresh)]

/-- Witness for C10's theorem at a concrete game: `p1` submits no
tiles; the hand stays `["x", "y"]` and the round gains a submission. -/
theorem submit_empty_tiles_witness :
    submit_response c10Game "p1" [] 7 = .ok
      { c10Game with
        current_round :=
          some { c10Round with
                 submissions := dictSet c10Round.submissions "p1"
                   { player_id := "p1", tiles_used := [], response_text := "",
                     submitted_at := 7 } } } ∧
    all_submissions_in (forceOk (submit_response c10Game "p1" [] 7)) =
      decide (c10Game.players.length ≤ c10Round.submissions.length + 1) :=
  submit_empty_tiles c10Game c10Round "p1" 7 c10Player rfl rfl rfl rfl

/-! ### Claim C3: winning selection short-circuits to GAME_OVER -/

/-- A game with a member at or above the winning score is over. -/
theorem check_game_over_true_of (g' : Game) (wid : String) (w' : Player)
    (hmem : (wid, w') ∈ g'.players)
    (hscore : (g'.config.points_to_win : Int) ≤ w'.score) :
    check_game_over g' = true := by
  simp only [check_game_over, List.any_eq_true]
  exact ⟨(wid, w'), hmem, by simpa using hscore⟩

/-- A game with every member strictly below the winning score is not over. -/
theorem check_game_over_false_of (g' : Game)
    (h : ∀ kp ∈ g'.players, kp.2.score < (g'.config.points_to_win : Int)) :
    check_game_over g' = false := by
  simp only [check_game_over, List.any_eq_false]
  intro kp hkp
  simpa using Int.not_le.mpr (h kp hkp)

/-- C3.  In ROUND_JUDGING with an active round, a submitted winner and
no player yet at the winning score: if the winner's incremented score
reaches `points_to_win`, `select_winner` archives the completed round
into `round_history` and the phase jumps straight to GAME_OVER — with
no condition on `judge_picked_self`, so this holds equally when the
winner is the judge; otherwise the phase becomes ROUND_RESULTS. -/
theorem select_winner_threshold (g : Game) (r : Round) (wid : String) (w : Player)
    (hphase : g.phase = .ROUND_JUDGING)
    (hr : g.current_round = some r)
    (hsub : dictContains r.submissions wid = true)
    (hw : dictGet g.players wid = some w)
    (hbelow : ∀ kp ∈ g.players, kp.2.score < (g.config.points_to_win : Int)) :
    ((g.config.points_to_win : Int) ≤ w.score + 1 →
      select_winner g wid = .ok
        { g with
          phase := .GAME_OVER,
          current_round :=
            some { r with
                   winner_id := some wid,
                   judge_picked_self := decide (r.judge_id = some wid) },
          players := dictSet g.players wid { w with score := w.score + 1 },
          round_history :=
            g.round_history ++
              [{ r with
                 winner_id := some wid,
                 judge_picked_self := decide (r.judge_id = some wid) }] }) ∧
    (w.score + 1 < (g.config.points_to_win : Int) →
      select_winner g wid = .ok
        { g with
          phase := .ROUND_RESULTS,
          current_round :=
            some { r with
                   winner_id := some wid,
                   judge_picked_self := decide (r.judge_id = some wid) },
          players := dictSet g.players wid { w with score := w.score + 1 } }) := by
  constructor
  · intro hge
    have hgo : check_game_over
        { g with
          current_round :=
            some { r with
                   winner_id := some wid,
                   judge_picked_self := decide (r.judge_id = some wid) },
          players := dictSet g.players wid { w with score := w.score + 1 } } = true :=
      check_game_over_true_of _ wid { w with score := w.score + 1 }
        (self_mem_dictSet g.players wid _) (by simpa using hge)
    rw [hphase] at hgo
    simp only [select_winner, hphase, hr, hsub, hw]
    simp [hgo]
  · intro hlt
    have hgo : check_game_over
        { g with
          current_round :=
            some { r with
                   winner_id := some wid,
                   judge_picked_self := decide (r.judge_id = some wid) },
          players := dictSet g.players wid { w with score := w.score + 1 } } = false := by
      refine check_game_over_false_of _ ?_
      intro kp hkp
      rcases mem_dictSet hkp with hmem | heq
      · simpa using hbelow kp hmem
      · subst heq
        simpa using hlt
    rw [hphase] at hgo
    simp only [select_winner, hphase, hr, hsub, hw]
    simp [hgo]

/-- Witness for C3's theorem: in `c3Game` (`points_to_win = 1`) the
judge `a` picks `b`, whose score reaches 1, so the game ends at once. -/
theorem select_winner_threshold_witness :
    select_winner c3Game "b" = .ok
      { c3Game with
        phase := .GAME_OVER,
        current_round :=
          some { c3Round with
                 winner_id := some "b",
                 judge_picked_self := decide (c3Round.judge_id = some "b") },
        players := dictSet c3Game.players "b"
          { c3PlayerB with score := c3PlayerB.score + 1 },
        round_history :=
          c3Game.round_history ++
            [{ c3Round with
               winner_id := some "b",
               judge_picked_self := decide (c3Round.judge_id = some "b") }] } :=
  (select_winner_threshold c3Game c3Round "b" c3PlayerB rfl rfl rfl rfl
    (by decide)).1 (by decide)

/-! ### Claim C4: overrule tally -/

/-- C4.  In ROUND_RESULTS with a self-picked round, 3+ players, and a
known non-judge voter who had not voted: when this vote completes the
ballot (vote count = non-judge player count), a unanimous true tally
decrements the judge's score by exactly 1, clears `winner_id` to null
and sets `overruled := true`; a completed tally containing any false
vote leaves players, winner_id and overruled untouched — only the vote
itself is recorded. -/
theorem cast_overrule_vote_tally (g : Game) (r : Round) (pid j : String)
    (vote : Bool) (judge : Player)
    (hphase : g.phase = .ROUND_RESULTS)
    (hr : g.current_round = some r)
    (hjps : r.judge_picked_self = true)
    (hcount : 3 ≤ g.players.length)
    (hj : r.judge_id = some j)
    (hvne : j ≠ pid)
    (hvmem : dictContains g.players pid = true)
    (hfresh : dictContains r.overrule_votes pid = false)
    (hjudge : dictGet g.players j = some judge)
    (hlast : (dictSet r.overrule_votes pid vote).length =
      (get_non_judge_player_ids g).length) :
    ((dictValues (dictSet r.overrule_votes pid vote)).all (fun b => b) = true →
      cast_overrule_vote g pid vote = .ok
        { g with
          current_round :=
            some { r with
                   overrule_votes := dictSet r.overrule_votes pid vote,
                   overruled := true,
                   winner_id := none },
          players := dictSet g.players j { judge with score := judge.score - 1 } }) ∧
    ((dictValues (dictSet r.overrule_votes pid vote)).all (fun b => b) = false →
      cast_overrule_vote g pid vote = .ok
        { g with
          current_round :=
            some { r with
                   overrule_votes := dictSet r.overrule_votes pid vote } }) := by
  have h3 : ¬ (g.players.length < 3) := by omega
  have hjne : ¬ (r.judge_id = some pid) := by
    rw [hj]
    simpa using hvne
  constructor
  · intro hall
    simp only [cast_overrule_vote, hphase, hr, hjps, h3, hjne, hvmem, hfresh,
      hlast, hall, hj, hjudge]
    simp [hvne]
  · intro hall
    simp only [cast_overrule_vote, hphase, hr, hjps, h3, hjne, hvmem, hfresh,
      hlast, hall]
    simp [hvne]

/-- Witness for C4's theorem: in `c4Game` (judge `a` picked themselves,
`b` already voted true) the final voter `c` votes true; the tally is
unanimous, so the judge's score drops from 1 to 0 and the winner is
cleared. -/
theorem cast_overrule_vote_tally_witness :
    cast_overrule_vote c4Game "c" true = .ok
      { c4Game with
        current_round :=
          some { c4Round with
                 overrule_votes := dictSet c4Round.overrule_votes "c" true,
                 overruled := true,
                 winner_id := none },
        players := dictSet c4Game.players "a"
          { c4PlayerA with score := c4PlayerA.score - 1 } } :=
  (cast_overrule_vote_tally c4Game c4Round "c" "a" true c4PlayerA rfl rfl rfl
    (by decide) rfl (by decide) rfl rfl rfl rfl).1 rfl

/-! ### Claim C5: winner-vote plurality resolution -/

theorem nodup_dictKeys_voteCounts_aux (votes : List (String × String))
    (acc : Dict Nat) (hacc : (dictKeys acc).Nodup) :
    (dictKeys (votes.foldl (fun counts kv =>
      dictSet counts kv.2 ((dictGet counts kv.2).getD 0 + 1)) acc)).Nodup := by
  induction votes generalizing acc with
  | nil => simpa using hacc
  | cons kv rest ih =>
      simp only [List.foldl_cons]
      exact ih _ (nodup_dictKeys_dictSet _ hacc)

/-- The `vote_counts` dict has distinct keys. -/
theorem nodup_dictKeys_voteCounts (votes : Dict String) :
    (dictKeys (voteCounts votes)).Nodup :=
  nodup_dictKeys_voteCounts_aux votes [] (by simp [dictKeys])

/-- In a dict with distinct keys, an entry is determined by its key. -/
theorem mem_eq_of_keys_nodup {α : Type} {l : List (String × α)} {k : String}
    {v : α} (hnd : (dictKeys l).Nodup) (hmem : (k, v) ∈ l) :
    ∀ kv ∈ l, kv.1 = k → kv = (k, v) := by
  induction l with
  | nil => simp at hmem
  | cons hd tl ih =>
      have hnd' : hd.1 ∉ dictKeys tl ∧ (dictKeys tl).Nodup := by
        simpa [dictKeys] using hnd
      intro kv hkv hk
      rcases List.mem_cons.mp hmem with hm | hm
      · rcases List.mem_cons.mp hkv with hk2 | hk2
        · rw [hk2, ← hm]
        · exfalso
          apply hnd'.1
          have hin : kv.1 ∈ dictKeys tl := by
            simpa [dictKeys] using List.mem_map_of_mem Prod.fst hk2
          rw [hk] at hin
          rw [← hm]
          exact hin
      · rcases List.mem_cons.mp hkv with hk2 | hk2
        · exfalso
          apply hnd'.1
          have hin : k ∈ dictKeys tl := by
            simpa [dictKeys] using List.mem_map_of_mem Prod.fst hm
          rw [hk2] at hk
          rw [hk]
          exact hin
        · exact ih hnd'.2 hm kv hk2 hk

/-- If one entry strictly dominates every other, filtering for its
count keeps exactly that entry. -/
theorem filter_max_eq_singleton {l : List (String × Nat)} {c : String} {n : Nat}
    (hmem : (c, n) ∈ l) (hnd : (dictKeys l).Nodup)
    (hothers : ∀ kv ∈ l, kv.1 ≠ c → kv.2 < n) :
    l.filter (fun kv => decide (kv.2 = n)) = [(c, n)] := by
  induction l with
  | nil => simp at hmem
  | cons hd tl ih =>
      have hnd' : hd.1 ∉ dictKeys tl ∧ (dictKeys tl).Nodup := by
        simpa [dictKeys] using hnd
      by_cases hhd : hd = (c, n)
      · subst hhd
        have htl : tl.filter (fun kv => decide (kv.2 = n)) = [] := by
          rw [List.filter_eq_nil_iff]
          intro kv hkv
          have hne : kv.1 ≠ c := by
            intro hc
            apply hnd'.1
            have hin : kv.1 ∈ dictKeys tl := by
              simpa [dictKeys] using List.mem_map_of_mem Prod.fst hkv
            rw [hc] at hin
            exact hin
          simpa using Nat.ne_of_lt (hothers kv (List.mem_cons_of_mem _ hkv) hne)
        simp [List.filter_cons, htl]
      · have hd1 : hd.1 ≠ c := by
          intro hc
          rcases List.mem_cons.mp hmem with hm | hm
          · exact hhd hm.symm
          · apply hnd'.1
            rw [hc]
            simpa [dictKeys] using List.mem_map_of_mem Prod.fst hm
        have hne : ¬ (hd.2 = n) :=
          Nat.ne_of_lt (hothers hd (List.mem_cons_self _ _) hd1)
        have hmem' : (c, n) ∈ tl := by
          rcases List.mem_cons.mp hmem with hm | hm
          · exact absurd hm.symm hhd
          · exact hm
        rw [List.filter_cons]
        simp only [hne, decide_False, Bool.false_eq_true, if_false]
        exact ih hmem' hnd'.2
          (fun kv hkv h => hothers kv (List.mem_cons_of_mem _ hkv) h)

/-- Strict plurality: the candidate whose count strictly dominates all
other entries of `vote_counts` is the resolved winner. -/
theorem pluralityWinner_of_strict (r : Round) (c : String) (n : Nat)
    (hcn : (c, n) ∈ voteCounts r.winner_votes)
    (hstrict : ∀ kv ∈ voteCounts r.winner_votes, kv.1 ≠ c → kv.2 < n) :
    pluralityWinner r = some c := by
  have hnd := nodup_dictKeys_voteCounts r.winner_votes
  have hmaxmem : n ∈ dictValues (voteCounts r.winner_votes) := by
    simpa [dictValues] using List.mem_map_of_mem Prod.snd hcn
  have hmax : maxNat (dictValues (voteCounts r.winner_votes)) = n := by
    apply Nat.le_antisymm
    · apply maxNat_le
      intro v hv
      simp only [dictValues, List.mem_map] at hv
      obtain ⟨kv, hkv, hveq⟩ := hv
      by_cases hk : kv.1 = c
      · have := mem_eq_of_keys_nodup hnd hcn kv hkv hk
        rw [← hveq, this]
      · rw [← hveq]
        exact Nat.le_of_lt (hstrict kv hkv hk)
    · exact le_maxNat_of_mem hmaxmem
  have hfilter : (voteCounts r.winner_votes).filter
      (fun kv => decide (kv.2 =
        maxNat (dictValues (voteCounts r.winner_votes)))) = [(c, n)] := by
    rw [hmax]
    exact filter_max_eq_singleton hcn hnd hstrict
  have htop : topCandidates r = [c] := by
    simp [topCandidates, hfilter]
  cases hvc : voteCounts r.winner_votes with
  | nil =>
      rw [hvc] at hcn
      simp at hcn
  | cons x xs => simp [pluralityWinner, hvc, htop]

/-- Tie-break: among several top candidates, the one with the strictly
earliest `submitted_at` is the resolved winner. -/
theorem pluralityWinner_of_tie (r : Round) (c : String)
    (hlen : 1 < (topCandidates r).length)
    (hc : c ∈ topCandidates r)
    (hsubs : (topCandidates r).all (fun pid => dictContains r.submissions pid) = true)
    (hts : ∀ d ∈ topCandidates r, d ≠ c →
      submittedAtOf r c < submittedAtOf r d) :
    pluralityWinner r = some c := by
  have hmin := minByFirst_eq_of_strict_min (submittedAtOf r) (topCandidates r) c hc hts
  cases hvc : voteCounts r.winner_votes with
  | nil =>
      exfalso
      simp [topCandidates, hvc] at hc
  | cons x xs => simp [pluralityWinner, hvc, hlen, hsubs, hmin]

/-- C5.  When the final non-judge voter completes the winner ballot,
`cast_winner_vote` resolves via `determine_voted_winner`: the winner is
`pluralityWinner` of the updated round (a strict-plurality candidate
when one exists; on a tie for the maximum count, the tied candidate
with the strictly earliest `submitted_at`), its score is incremented
by 1, and `winner_id` is set to it. -/
theorem cast_winner_vote_plurality (g : Game) (r r' : Round)
    (voter wid c : String)
    (hr' : r' = { r with winner_votes := dictSet r.winner_votes voter wid })
    (hphase : g.phase = .ROUND_RESULTS)
    (hr : g.current_round = some r)
    (hov : r.overruled = true)
    (hvne : ¬ (r.judge_id = some voter))
    (hvmem : dictContains g.players voter = true)
    (hfresh : dictContains r.winner_votes voter = false)
    (hwsub : dictContains r.submissions wid = true)
    (hwne : ¬ (r.judge_id = some wid))
    (hlast : (dictSet r.winner_votes voter wid).length =
      (get_non_judge_player_ids g).length) :
    (pluralityWinner r' = some c →
      ∀ pc, dictGet g.players c = some pc →
      cast_winner_vote g voter wid = .ok
        { g with
          current_round := some { r' with winner_id := some c },
          players := dictSet g.players c { pc with score := pc.score + 1 } }) ∧
    (∀ n, (c, n) ∈ voteCounts r'.winner_votes →
      (∀ kv ∈ voteCounts r'.winner_votes, kv.1 ≠ c → kv.2 < n) →
      pluralityWinner r' = some c) ∧
    (1 < (topCandidates r').length →
      c ∈ topCandidates r' →
      (topCandidates r').all (fun pid => dictContains r'.submissions pid) = true →
      (∀ d ∈ topCandidates r', d ≠ c →
        submittedAtOf r' c < submittedAtOf r' d) →
      pluralityWinner r' = some c) := by
  subst hr'
  refine ⟨fun hpl pc hpc => ?_,
    fun n hcn hstrict => pluralityWinner_of_strict _ c n hcn hstrict,
    fun hlen hc hsubs hts => pluralityWinner_of_tie _ c hlen hc hsubs hts⟩
  rw [hov] at hpl
  simp only [cast_winner_vote, hphase, hr, hov, hvne, hvmem, hfresh, hwsub,
    hwne, hlast]
  simp only [determine_voted_winner]
  simp [hpl, hpc, hov]

/-- Witness for C5's theorem: in `c5Game` the final voter `d` votes for
`b`, producing counts `{c: 2, b: 1}`; `c` has the strict plurality and
wins, score 0 → 1. -/
theorem cast_winner_vote_plurality_witness :
    cast_winner_vote c5Game "d" "b" = .ok
      { c5Game with
        current_round :=
          some { { c5Round with
                   winner_votes := dictSet c5Round.winner_votes "d" "b" } with
                 winner_id := some "c" },
        players := dictSet c5Game.players "c"
          { c5PlayerC with score := c5PlayerC.score + 1 } } := by
  have h := cast_winner_vote_plurality c5Game c5Round _ "d" "b" "c" rfl rfl rfl
    rfl (by decide) rfl rfl rfl (by decide) rfl
  exact h.1 (h.2.1 2 (by decide) (by decide)) c5PlayerC rfl

/-! ### Claim C6: no game-over short-circuit after a winner vote -/

/-- `determine_voted_winner` never changes the phase. -/
theorem determine_voted_winner_phase (x y : Game)
    (h : determine_voted_winner x = .ok y) : y.phase = x.phase := by
  unfold determine_voted_winner at h
  repeat' split at h
  all_goals first
    | (simp only [Except.ok.injEq] at h
       rw [← h])
    | (simp at h)

/-- Every successful `cast_winner_vote` keeps the phase unchanged. -/
theorem cast_winner_vote_phase (g : Game) (voter wid : String) (g' : Game)
    (hok : cast_winner_vote g voter wid = .ok g') : g'.phase = g.phase := by
  unfold cast_winner_vote at hok
  repeat' split at hok
  all_goals try dsimp only at hok
  all_goals try split at hok
  all_goals first
    | (exact (determine_voted_winner_phase _ _ hok).trans rfl)
    | (simp only [Except.ok.injEq] at hok
       rw [← hok])
    | (simp at hok)

/-- C6.  A successful `cast_winner_vote` always leaves the game in
ROUND_RESULTS — `determine_voted_winner` performs no score-based
game-over short-circuit (unlike `select_winner`), even when the
resolved winner's incremented score reaches `points_to_win`. -/
theorem cast_winner_vote_no_game_over (g : Game) (voter wid : String)
    (g' : Game) (hok : cast_winner_vote g voter wid = .ok g') :
    g'.phase = .ROUND_RESULTS ∧ g'.phase ≠ .GAME_OVER := by
  have hph := cast_winner_vote_phase g voter wid g' hok
  have hres : g.phase = .ROUND_RESULTS := by
    by_contra hne
    simp [cast_winner_vote, hne] at hok
  constructor
  · rw [hph, hres]
  · rw [hph, hres]
    simp

/-- Witness for C6's theorem: in `c6Game` (`points_to_win = 1`) the
final winner vote pushes `b` to the winning score, yet the phase stays
ROUND_RESULTS even though `check_game_over` now holds. -/
theorem cast_winner_vote_no_game_over_witness :
    c6Final.phase = .ROUND_RESULTS ∧ c6Final.phase ≠ .GAME_OVER ∧
    check_game_over c6Final = true :=
  ⟨(cast_winner_vote_no_game_over c6Game "c" "b" c6Final rfl).1,
   (cast_winner_vote_no_game_over c6Game "c" "b" c6Final rfl).2,
   by decide⟩

/-! ### Claim C7: deterministic judge rotation -/

/-- C7.  In ROUND_SUBMISSION with an active round and a non-empty
player dict with distinct ids: `advance_to_judging` sets the judge to
the element at index `(round_number - 1) % player_count` — that is,
`round_history.length % player_count` — of the ascending sort of the
player ids; and for a fixed 2-player id set, consecutive round numbers
select different judges (strict alternation). -/
theorem advance_to_judging_rotation (g : Game) (r : Round)
    (hphase : g.phase = .ROUND_SUBMISSION)
    (hr : g.current_round = some r)
    (hne : g.players ≠ [])
    (hnodup : (dictKeys g.players).Nodup) :
    (∃ j, (List.insertionSort (fun a b => strLe a b = true) (dictKeys g.players)).get?
        (g.round_history.length % g.players.length) = some j ∧
      select_judge g = some j ∧
      advance_to_judging g = .ok
        { g with
          phase := .ROUND_JUDGING,
          current_round := some { r with judge_id := some j } }) ∧
    (∀ g₂ : Game, dictKeys g₂.players = dictKeys g.players →
      g₂.round_history.length = g.round_history.length + 1 →
      g.players.length = 2 →
      select_judge g₂ ≠ select_judge g) := by
  have hklen : (dictKeys g.players).length = g.players.length := by
    simp [dictKeys]
  have hslen : (List.insertionSort (fun a b => strLe a b = true) (dictKeys g.players)).length
      = g.players.length := by
    rw [(List.perm_insertionSort _ _).length_eq, hklen]
  have hpos : 0 < g.players.length := List.length_pos.mpr hne
  have hidx : g.round_history.length % g.players.length <
      (List.insertionSort (fun a b => strLe a b = true) (dictKeys g.players)).length := by
    rw [hslen]
    exact Nat.mod_lt _ hpos
  have hsel : select_judge g =
      (List.insertionSort (fun a b => strLe a b = true) (dictKeys g.players)).get?
        (g.round_history.length % g.players.length) := by
    unfold select_judge get_player_ids_in_order
    simp only [Nat.add_sub_cancel]
    rw [hslen]
  constructor
  · refine ⟨(List.insertionSort (fun a b => strLe a b = true) (dictKeys g.players)).get
      ⟨g.round_history.length % g.players.length, hidx⟩, ?_, ?_, ?_⟩
    · exact List.get?_eq_get hidx
    · rw [hsel]
      exact List.get?_eq_get hidx
    · have hj : select_judge g = some
          ((List.insertionSort (fun a b => strLe a b = true) (dictKeys g.players)).get
            ⟨g.round_history.length % g.players.length, hidx⟩) := by
        rw [hsel]
        exact List.get?_eq_get hidx
      simp [advance_to_judging, hphase, hr, hj]
  · intro g₂ hkeys hhist h2
    have hsnd : (List.insertionSort (fun a b => strLe a b = true) (dictKeys g.players)).Nodup :=
      ((List.perm_insertionSort _ _).nodup_iff).mpr hnodup
    have hsel2 : select_judge g₂ =
        (List.insertionSort (fun a b => strLe a b = true) (dictKeys g.players)).get?
          ((g.round_history.length + 1) % g.players.length) := by
      unfold select_judge get_player_ids_in_order
      simp only [Nat.add_sub_cancel]
      rw [hkeys, hslen, hhist]
    have hi1 : g.round_history.length % 2 <
        (List.insertionSort (fun a b => strLe a b = true) (dictKeys g.players)).length := by
      rw [hslen, h2]
      omega
    have hi2 : (g.round_history.length + 1) % 2 <
        (List.insertionSort (fun a b => strLe a b = true) (dictKeys g.players)).length := by
      rw [hslen, h2]
      omega
    rw [hsel, hsel2, h2]
    rw [List.get?_eq_get hi1, List.get?_eq_get hi2]
    intro hcontra
    simp only [Option.some.injEq] at hcontra
    have heq := (List.Nodup.get_inj_iff hsnd).mp hcontra
    have : (g.round_history.length + 1) % 2 = g.round_history.length % 2 := by
      simpa using congrArg Fin.val heq
    omega

/-- Witness for C7's theorem: in the 2-player `c7Game`, round 1's
judge differs from round 2's judge (players `a` and `b` alternate). -/
theorem advance_to_judging_rotation_witness :
    select_judge c7Game2 ≠ select_judge c7Game :=
  (advance_to_judging_rotation c7Game c7Round rfl rfl (by decide)
    (by decide)).2 c7Game2 rfl rfl rfl

/-! ### Invariant preservation: auxiliary lemmas -/

theorem mem_keys_of_dictGet_some {α : Type} {d : Dict α} {k : String} {v : α}
    (h : dictGet d k = some v) : k ∈ dictKeys d := by
  by_contra hk
  rw [← dictGet_eq_none_iff] at hk
  rw [h] at hk
  cases hk

theorem dictContains_of_mem_keys {α : Type} {d : Dict α} {k : String}
    (h : k ∈ dictKeys d) : dictContains d k = true := by
  rw [dictContains]
  cases hg : dictGet d k with
  | none => exact absurd h (dictGet_eq_none_iff.mp hg)
  | some v => rfl

/-- Pigeonhole for duplicate-free lists: a Nodup sublist of equal
length exhausts its superlist. -/
theorem nodup_subset_length_eq {l1 l2 : List String}
    (h1 : l1.Nodup) (h2 : l2.Nodup) (hsub : ∀ x ∈ l1, x ∈ l2)
    (hlen : l1.length = l2.length) : ∀ x ∈ l2, x ∈ l1 := by
  intro x hx
  have hsub' : l1.toFinset ⊆ l2.toFinset := by
    intro a ha
    rw [List.mem_toFinset] at ha ⊢
    exact hsub a ha
  have hcard : l2.toFinset.card ≤ l1.toFinset.card := by
    rw [List.toFinset_card_of_nodup h1, List.toFinset_card_of_nodup h2]
    omega
  have heq := Finset.eq_of_subset_of_card_le hsub' hcard
  rw [← List.mem_toFinset, ← heq, List.mem_toFinset] at hx
  exact hx

/-- A game without an active round satisfies the invariant as soon as
its players are well-formed. -/
theorem inv_no_round (g : Game) (hcr : g.current_round = none)
    (hnd : PlayersNodup g) (hsc : ScoresNonneg g) : Inv g := by
  refine ⟨hnd, hsc, ?_, ?_, ?_, ?_, ?_⟩
  · intro _ r hr
    rw [hcr] at hr
    cases hr
  · intro _ r hr
    rw [hcr] at hr
    cases hr
  · intro _ r hr
    rw [hcr] at hr
    cases hr
  · intro r hr
    rw [hcr] at hr
    cases hr
  · intro _ r hr
    rw [hcr] at hr
    cases hr

theorem inv_create (game_id invite_code host_id host_nickname : String)
    (config : GameConfig) :
    Inv (create_game game_id invite_code host_id host_nickname config).1 := by
  refine inv_no_round _ rfl ?_ ?_
  · simp [PlayersNodup, create_game, dictKeys]
  · intro kp hkp
    simp only [create_game, List.mem_singleton] at hkp
    rw [hkp]
    simp [create_player]

/-- `start_new_round` establishes the invariant from players-side
facts alone (the fresh round is pristine; on prompt exhaustion the
phase becomes GAME_OVER, making the round-state clauses vacuous). -/
theorem inv_start_new_round (g : Game) (pick : Nat)
    (hnd : PlayersNodup g) (hsc : ScoresNonneg g) (hovwf : OverruleVotesWF g) :
    Inv (start_new_round g pick) := by
  unfold start_new_round
  cases hprompt : select_next_prompt g pick with
  | none =>
      refine ⟨hnd, hsc, ?_, ?_, ?_, ?_, ?_⟩
      · intro hph r hr
        rcases hph with h | h <;> simp at h
      · intro hph
        simp at hph
      · intro hph
        simp at hph
      · intro r hr
        simp only at hr
        exact hovwf r hr
      · intro hph
        simp at hph
  | some prompt =>
      refine ⟨hnd, hsc, ?_, ?_, ?_, ?_, ?_⟩
      · intro hph r hr
        simp only [Option.some.injEq] at hr
        rw [← hr]
        exact ⟨rfl, rfl, rfl⟩
      · intro hph
        simp at hph
      · intro hph
        simp at hph
      · intro r hr
        simp only [Option.some.injEq] at hr
        rw [← hr]
        refine ⟨by simp [dictKeys], ?_⟩
        intro pid hpid
        simp [dictKeys] at hpid
      · intro hph r hr
        simp only [Option.some.injEq] at hr
        rw [← hr]

/-- Mapping over a dict while keeping first components fixed keeps the
key list. -/
theorem dictKeys_map_fst {α β : Type} (d : Dict α)
    (f : String × α → String × β) (hf : ∀ kp, (f kp).1 = kp.1) :
    dictKeys (d.map f) = dictKeys d := by
  induction d with
  | nil => rfl
  | cons hd tl ih =>
      simp only [List.map_cons, dictKeys, List.map] at ih ⊢
      rw [hf hd, ih]

/-- `distribute_tiles` touches only hands and the word pool. -/
theorem inv_distribute_facts (g : Game) (words : List String)
    (draw : String → List String)
    (hnd : PlayersNodup g) (hsc : ScoresNonneg g) (hovwf : OverruleVotesWF g) :
    PlayersNodup (distribute_tiles g words draw) ∧
    ScoresNonneg (distribute_tiles g words draw) ∧
    OverruleVotesWF (distribute_tiles g words draw) := by
  have hk : dictKeys ((distribute_tiles g words draw).players) = dictKeys g.players := by
    show dictKeys (g.players.map fun kp =>
      (kp.1, ({ kp.2 with word_tiles := draw kp.1 } : Player))) = dictKeys g.players
    exact dictKeys_map_fst _ _ (fun kp => rfl)
  refine ⟨?_, ?_, ?_⟩
  · show (dictKeys ((distribute_tiles g words draw).players)).Nodup
    rw [hk]
    exact hnd
  · intro kp hkp
    simp only [distribute_tiles, List.mem_map] at hkp
    obtain ⟨kp0, hkp0, hmap⟩ := hkp
    rw [← hmap]
    exact hsc kp0 hkp0
  · intro r hr
    obtain ⟨hndv, hmem⟩ := hovwf r hr
    refine ⟨hndv, ?_⟩
    intro pid hpid
    obtain ⟨hp, hj⟩ := hmem pid hpid
    refine ⟨?_, hj⟩
    show pid ∈ dictKeys ((distribute_tiles g words draw).players)
    rw [hk]
    exact hp

/-- `replenish_tiles` touches only hands. -/
theorem inv_replenish_facts (g : Game) (draw : String → List String)
    (hnd : PlayersNodup g) (hsc : ScoresNonneg g) (hovwf : OverruleVotesWF g) :
    PlayersNodup (replenish_tiles g draw) ∧
    ScoresNonneg (replenish_tiles g draw) ∧
    OverruleVotesWF (replenish_tiles g draw) := by
  have hk : dictKeys ((replenish_tiles g draw).players) = dictKeys g.players := by
    show dictKeys (g.players.map fun kp =>
      ((kp.1,
        if kp.2.word_tiles.length < g.config.tiles_per_player then
          { kp.2 with word_tiles := kp.2.word_tiles ++ draw kp.1 }
        else kp.2) : String × Player)) = dictKeys g.players
    exact dictKeys_map_fst _ _ (fun kp => rfl)
  refine ⟨?_, ?_, ?_⟩
  · show (dictKeys ((replenish_tiles g draw).players)).Nodup
    rw [hk]
    exact hnd
  · intro kp hkp
    simp only [replenish_tiles, List.mem_map] at hkp
    obtain ⟨kp0, hkp0, hmap⟩ := hkp
    rw [← hmap]
    have hs := hsc kp0 hkp0
    by_cases hcond : kp0.2.word_tiles.length < g.config.tiles_per_player
    · simpa [hcond] using hs
    · simpa [hcond] using hs
  · intro r hr
    obtain ⟨hndv, hmem⟩ := hovwf r hr
    refine ⟨hndv, ?_⟩
    intro pid hpid
    obtain ⟨hp, hj⟩ := hmem pid hpid
    refine ⟨?_, hj⟩
    show pid ∈ dictKeys ((replenish_tiles g draw).players)
    rw [hk]
    exact hp

theorem inv_restart (g : Game) (g' : Game) (hnd : PlayersNodup g)
    (h : restart_game g = .ok g') : Inv g' := by
  unfold restart_game at h
  split at h
  · simp at h
  · simp only [Except.ok.injEq] at h
    rw [← h]
    refine inv_no_round _ rfl ?_ ?_
    · show (dictKeys (g.players.map fun kp =>
        (kp.1, ({ kp.2 with score := 0, word_tiles := [] } : Player)))).Nodup
      have hk2 : dictKeys (g.players.map fun kp =>
          (kp.1, ({ kp.2 with score := 0, word_tiles := [] } : Player))) =
            dictKeys g.players :=
        dictKeys_map_fst _ _ (fun kp => rfl)
      rw [hk2]
      exact hnd
    · intro kp hkp
      simp only [List.mem_map] at hkp
      obtain ⟨kp0, _, hmap⟩ := hkp
      rw [← hmap]

/-! ### Invariant preservation: join, submit, judging, winner -/

theorem add_player_ok_inv (g : Game) (new_id nickname : String)
    (gp : Game × Player) (h : add_player_to_game g new_id nickname = .ok gp) :
    g.phase = .LOBBY ∧
    gp.1 = { g with
             players := dictSet g.players new_id
               (create_player new_id nickname false) } := by
  unfold add_player_to_game at h
  split at h
  · simp at h
  · rename_i hphase
    split at h
    · simp at h
    · split at h
      · simp at h
      · simp only [Except.ok.injEq] at h
        refine ⟨not_ne_iff.mp hphase, ?_⟩
        rw [← h]

theorem inv_join (g : Game) (new_id nickname : String) (gp : Game × Player)
    (hinv : Inv g) (hfresh : dictGet g.players new_id = none)
    (h : add_player_to_game g new_id nickname = .ok gp) : Inv gp.1 := by
  obtain ⟨hnd, hsc, hpr, hjsp, hoav, hovwf, hrnc⟩ := hinv
  obtain ⟨hphase, hshape⟩ := add_player_ok_inv g new_id nickname gp h
  rw [hshape]
  refine ⟨?_, ?_, ?_, ?_, ?_, ?_, ?_⟩
  · exact nodup_dictKeys_dictSet _ hnd
  · intro kp hkp
    rcases mem_dictSet hkp with hm | he
    · exact hsc kp hm
    · rw [he]
      simp [create_player]
  · intro hph r hr
    rcases hph with h1 | h1
    · have h2 : g.phase = .ROUND_SUBMISSION := h1
      rw [hphase] at h2
      cases h2
    · have h2 : g.phase = .ROUND_JUDGING := h1
      rw [hphase] at h2
      cases h2
  · intro hph
    have h2 : g.phase = .ROUND_RESULTS := hph
    rw [hphase] at h2
    cases h2
  · intro hph
    have h2 : g.phase = .ROUND_RESULTS := hph
    rw [hphase] at h2
    cases h2
  · intro r hr
    have hr' : g.current_round = some r := hr
    obtain ⟨hndv, hmem⟩ := hovwf r hr'
    refine ⟨hndv, ?_⟩
    intro pid hpid
    obtain ⟨hp, hj⟩ := hmem pid hpid
    refine ⟨?_, hj⟩
    show pid ∈ dictKeys (dictSet g.players new_id
      (create_player new_id nickname false))
    rw [dictKeys_dictSet_fresh _ hfresh]
    exact List.mem_append_left _ hp
  · intro hph r hr
    have hr' : g.current_round = some r := hr
    have hne : g.phase ≠ .GAME_OVER := by
      rw [hphase]
      simp
    exact hrnc hne r hr'

theorem submit_response_ok_inv (g : Game) (pid : String) (tiles : List String)
    (now : Nat) (g' : Game) (h : submit_response g pid tiles now = .ok g') :
    ∃ r p, g.phase = .ROUND_SUBMISSION ∧ g.current_round = some r ∧
      dictGet g.players pid = some p ∧
      g' = { g with
             current_round :=
               some { r with
                      submissions := dictSet r.submissions pid
                        (mkSubmission pid tiles now) },
             players :=
               dictSet g.players pid
                 { p with
                   word_tiles := p.word_tiles.filter fun t => !(tiles.contains t) } } := by
  unfold submit_response at h
  split at h
  · simp at h
  · rename_i hphase
    split at h
    · simp at h
    · rename_i r hcr
      split at h
      · simp at h
      · split at h
        · simp at h
        · rename_i p hp
          split at h
          · simp only [Except.ok.injEq] at h
            subst h
            exact ⟨r, p, not_ne_iff.mp hphase, hcr, hp, rfl⟩
          · simp at h

theorem inv_submit (g : Game) (pid : String) (tiles : List String) (now : Nat)
    (g' : Game) (hinv : Inv g) (h : submit_response g pid tiles now = .ok g') :
    Inv g' := by
  obtain ⟨hnd, hsc, hpr, hjsp, hoav, hovwf, hrnc⟩ := hinv
  obtain ⟨r, p, hphase, hcr, hp, hshape⟩ := submit_response_ok_inv g pid tiles now g' h
  subst hshape
  have hkeys : dictKeys (dictSet g.players pid
      { p with word_tiles := p.word_tiles.filter fun t => !(tiles.contains t) }) =
      dictKeys g.players :=
    dictKeys_dictSet_mem _ (mem_keys_of_dictGet_some hp)
  refine ⟨?_, ?_, ?_, ?_, ?_, ?_, ?_⟩
  · exact nodup_dictKeys_dictSet _ hnd
  · intro kp hkp
    rcases mem_dictSet hkp with hm | he
    · exact hsc kp hm
    · rw [he]
      exact hsc (pid, p) (dictGet_some_mem hp)
  · intro hph r' hr'
    have hr2 : some
        ({ r with
           submissions := dictSet r.submissions pid (mkSubmission pid tiles now) } :
          Round) = some r' := hr'
    simp only [Option.some.injEq] at hr2
    rw [← hr2]
    exact hpr (Or.inl hphase) r hcr
  · intro hph
    have h2 : g.phase = .ROUND_RESULTS := hph
    rw [hphase] at h2
    cases h2
  · intro hph
    have h2 : g.phase = .ROUND_RESULTS := hph
    rw [hphase] at h2
    cases h2
  · intro r' hr'
    have hr2 : some
        ({ r with
           submissions := dictSet r.submissions pid (mkSubmission pid tiles now) } :
          Round) = some r' := hr'
    simp only [Option.some.injEq] at hr2
    rw [← hr2]
    obtain ⟨hndv, hmem⟩ := hovwf r hcr
    refine ⟨hndv, ?_⟩
    intro q hq
    obtain ⟨hq1, hq2⟩ := hmem q hq
    refine ⟨?_, hq2⟩
    show q ∈ dictKeys (dictSet g.players pid
      { p with word_tiles := p.word_tiles.filter fun t => !(tiles.contains t) })
    rw [hkeys]
    exact hq1
  · intro hph r' hr'
    have hr2 : some
        ({ r with
           submissions := dictSet r.submissions pid (mkSubmission pid tiles now) } :
          Round) = some r' := hr'
    simp only [Option.some.injEq] at hr2
    rw [← hr2]
    have hne : g.phase ≠ .GAME_OVER := by
      rw [hphase]
      simp
    exact hrnc hne r hcr

theorem advance_to_judging_ok_inv (g : Game) (g' : Game)
    (h : advance_to_judging g = .ok g') :
    ∃ r j, g.phase = .ROUND_SUBMISSION ∧ g.current_round = some r ∧
      select_judge g = some j ∧
      g' = { g with
             phase := .ROUND_JUDGING,
             current_round := some { r with judge_id := some j } } := by
  unfold advance_to_judging at h
  split at h
  · simp at h
  · rename_i hphase
    split at h
    · simp at h
    · rename_i r hcr
      split at h
      · simp at h
      · rename_i j hj
        simp only [Except.ok.injEq] at h
        exact ⟨r, j, not_ne_iff.mp hphase, hcr, hj, h.symm⟩

theorem inv_judging (g : Game) (g' : Game) (hinv : Inv g)
    (h : advance_to_judging g = .ok g') : Inv g' := by
  obtain ⟨hnd, hsc, hpr, hjsp, hoav, hovwf, hrnc⟩ := hinv
  obtain ⟨r, j, hphase, hcr, hj, hshape⟩ := advance_to_judging_ok_inv g g' h
  subst hshape
  have hprist := hpr (Or.inl hphase) r hcr
  refine ⟨hnd, hsc, ?_, ?_, ?_, ?_, ?_⟩
  · intro hph r' hr'
    have hr2 : some ({ r with judge_id := some j } : Round) = some r' := hr'
    simp only [Option.some.injEq] at hr2
    rw [← hr2]
    exact hprist
  · intro hph
    have h2 : GamePhase.ROUND_JUDGING = .ROUND_RESULTS := hph
    cases h2
  · intro hph
    have h2 : GamePhase.ROUND_JUDGING = .ROUND_RESULTS := hph
    cases h2
  · intro r' hr'
    have hr2 : some ({ r with judge_id := some j } : Round) = some r' := hr'
    simp only [Option.some.injEq] at hr2
    rw [← hr2]
    have hov : ({ r with judge_id := some j } : Round).overrule_votes = [] :=
      hprist.1
    refine ⟨by rw [hov]; simp [dictKeys], ?_⟩
    intro q hq
    rw [hov] at hq
    simp [dictKeys] at hq
  · intro hph r' hr'
    have hr2 : some ({ r with judge_id := some j } : Round) = some r' := hr'
    simp only [Option.some.injEq] at hr2
    rw [← hr2]
    have hne : g.phase ≠ .GAME_OVER := by
      rw [hphase]
      simp
    exact hrnc hne r hcr

theorem select_winner_ok_inv (g : Game) (wid : String) (g' : Game)
    (h : select_winner g wid = .ok g') :
    ∃ r w, g.phase = .ROUND_JUDGING ∧ g.current_round = some r ∧
      dictGet g.players wid = some w ∧
      (g' = { g with
              phase := .GAME_OVER,
              current_round :=
                some { r with
                       winner_id := some wid,
                       judge_picked_self := decide (r.judge_id = some wid) },
              players := dictSet g.players wid { w with score := w.score + 1 },
              round_history :=
                g.round_history ++
                  [{ r with
                     winner_id := some wid,
                     judge_picked_self := decide (r.judge_id = some wid) }] } ∨
       g' = { g with
              phase := .ROUND_RESULTS,
              current_round :=
                some { r with
                       winner_id := some wid,
                       judge_picked_self := decide (r.judge_id = some wid) },
              players := dictSet g.players wid { w with score := w.score + 1 } }) := by
  unfold select_winner at h
  split at h
  · simp at h
  · rename_i hphase
    split at h
    · simp at h
    · rename_i r hcr
      split at h
      · simp at h
      · split at h
        · simp at h
        · rename_i w hw
          dsimp only at h
          split at h
          · simp only [Except.ok.injEq] at h
            subst h
            exact ⟨r, w, not_ne_iff.mp hphase, hcr, hw, Or.inl rfl⟩
          · simp only [Except.ok.injEq] at h
            subst h
            exact ⟨r, w, not_ne_iff.mp hphase, hcr, hw, Or.inr rfl⟩

theorem inv_winner (g : Game) (wid : String) (g' : Game) (hinv : Inv g)
    (h : select_winner g wid = .ok g') : Inv g' := by
  obtain ⟨hnd, hsc, hpr, hjsp, hoav, hovwf, hrnc⟩ := hinv
  obtain ⟨r, w, hphase, hcr, hw, hcase⟩ := select_winner_ok_inv g wid g' h
  have hprist := hpr (Or.inr hphase) r hcr
  have hscorew : (0 : Int) ≤ w.score := hsc (wid, w) (dictGet_some_mem hw)
  rcases hcase with hshape | hshape <;> subst hshape
  · refine ⟨nodup_dictKeys_dictSet _ hnd, ?_, ?_, ?_, ?_, ?_, ?_⟩
    · intro kp hkp
      rcases mem_dictSet hkp with hm | he
      · exact hsc kp hm
      · rw [he]
        show (0 : Int) ≤ w.score + 1
        omega
    · intro hph r' hr'
      rcases hph with h1 | h1 <;> cases h1
    · intro hph
      cases hph
    · intro hph
      cases hph
    · intro r' hr'
      have hr2 : some
          ({ r with
             winner_id := some wid,
             judge_picked_self := decide (r.judge_id = some wid) } : Round) =
            some r' := hr'
      simp only [Option.some.injEq] at hr2
      rw [← hr2]
      have hov :
          ({ r with
             winner_id := some wid,
             judge_picked_self := decide (r.judge_id = some wid) } :
            Round).overrule_votes = [] := hprist.1
      refine ⟨by rw [hov]; simp [dictKeys], ?_⟩
      intro q hq
      rw [hov] at hq
      simp [dictKeys] at hq
    · intro hph
      exact absurd rfl hph
  · refine ⟨nodup_dictKeys_dictSet _ hnd, ?_, ?_, ?_, ?_, ?_, ?_⟩
    · intro kp hkp
      rcases mem_dictSet hkp with hm | he
      · exact hsc kp hm
      · rw [he]
        show (0 : Int) ≤ w.score + 1
        omega
    · intro hph r' hr'
      rcases hph with h1 | h1 <;> cases h1
    · intro hph r' hr'
      have hr2 : some
          ({ r with
             winner_id := some wid,
             judge_picked_self := decide (r.judge_id = some wid) } : Round) =
            some r' := hr'
      simp only [Option.some.injEq] at hr2
      rw [← hr2]
      intro hjps hov
      have hj : r.judge_id = some wid := of_decide_eq_true hjps
      refine ⟨wid, { w with score := w.score + 1 }, hj, ?_, ?_⟩
      · exact dictGet_dictSet_self _ _ _
      · show (1 : Int) ≤ w.score + 1
        omega
    · intro hph r' hr'
      have hr2 : some
          ({ r with
             winner_id := some wid,
             judge_picked_self := decide (r.judge_id = some wid) } : Round) =
            some r' := hr'
      simp only [Option.some.injEq] at hr2
      rw [← hr2]
      intro hov
      have hov' : r.overruled = true := hov
      rw [hprist.2.1] at hov'
      cases hov'
    · intro r' hr'
      have hr2 : some
          ({ r with
             winner_id := some wid,
             judge_picked_self := decide (r.judge_id = some wid) } : Round) =
            some r' := hr'
      simp only [Option.some.injEq] at hr2
      rw [← hr2]
      have hov :
          ({ r with
             winner_id := some wid,
             judge_picked_self := decide (r.judge_id = some wid) } :
            Round).overrule_votes = [] := hprist.1
      refine ⟨by rw [hov]; simp [dictKeys], ?_⟩
      intro q hq
      rw [hov] at hq
      simp [dictKeys] at hq
    · intro hph r' hr'
      have hr2 : some
          ({ r with
             winner_id := some wid,
             judge_picked_self := decide (r.judge_id = some wid) } : Round) =
            some r' := hr'
      simp only [Option.some.injEq] at hr2
      rw [← hr2]
      have hne : g.phase ≠ .GAME_OVER := by
        rw [hphase]
        simp
      exact hrnc hne r hcr

/-! ### Invariant preservation: the overrule vote -/

theorem cast_overrule_vote_ok_inv (g : Game) (pid : String) (vote : Bool)
    (g' : Game) (h : cast_overrule_vote g pid vote = .ok g') :
    ∃ r, g.phase = .ROUND_RESULTS ∧ g.current_round = some r ∧
      r.judge_picked_self = true ∧
      ¬ (r.judge_id = some pid) ∧ dictContains g.players pid = true ∧
      dictContains r.overrule_votes pid = false ∧
      (g' = { g with
              current_round :=
                some { r with
                       overrule_votes := dictSet r.overrule_votes pid vote } } ∨
       ∃ j judge, r.judge_id = some j ∧ dictGet g.players j = some judge ∧
         (dictSet r.overrule_votes pid vote).length =
           (get_non_judge_player_ids g).length ∧
         g' = { g with
                current_round :=
                  some { r with
                         overrule_votes := dictSet r.overrule_votes pid vote,
                         overruled := true,
                         winner_id := none },
                players :=
                  dictSet g.players j { judge with score := judge.score - 1 } }) := by
  unfold cast_overrule_vote at h
  split at h
  · simp at h
  · rename_i hphase
    split at h
    · simp at h
    · rename_i r hcr
      split at h
      · simp at h
      · rename_i hjps
        split at h
        · simp at h
        · split at h
          · simp at h
          · rename_i hjne
            split at h
            · simp at h
            · rename_i hvmem
              split at h
              · simp at h
              · rename_i hfresh
                dsimp only at h
                split at h
                · rename_i hlen
                  split at h
                  · split at h
                    · simp at h
                    · rename_i j hj
                      split at h
                      · simp at h
                      · rename_i judge hjudge
                        simp only [Except.ok.injEq] at h
                        subst h
                        have hjudge' : dictGet g.players j = some judge := hjudge
                        exact ⟨r, not_ne_iff.mp hphase, hcr, by simpa using hjps,
                          hjne, by simpa using hvmem, by simpa using hfresh,
                          Or.inr ⟨j, judge, hj, hjudge', hlen, rfl⟩⟩
                  · simp only [Except.ok.injEq] at h
                    subst h
                    exact ⟨r, not_ne_iff.mp hphase, hcr, by simpa using hjps,
                      hjne, by simpa using hvmem, by simpa using hfresh,
                      Or.inl rfl⟩
                · simp only [Except.ok.injEq] at h
                  subst h
                  exact ⟨r, not_ne_iff.mp hphase, hcr, by simpa using hjps,
                    hjne, by simpa using hvmem, by simpa using hfresh,
                    Or.inl rfl⟩

theorem inv_overrule (g : Game) (pid : String) (vote : Bool) (g' : Game)
    (hinv : Inv g) (h : cast_overrule_vote g pid vote = .ok g') : Inv g' := by
  obtain ⟨hnd, hsc, hpr, hjsp, hoav, hovwf, hrnc⟩ := hinv
  obtain ⟨r, hphase, hcr, hjps, hjne, hvmem, hfresh, hcase⟩ :=
    cast_overrule_vote_ok_inv g pid vote g' h
  have hpid_mem : pid ∈ dictKeys g.players := by
    rcases dictContains_eq_true_iff.mp hvmem with ⟨v, hv⟩
    exact mem_keys_of_dictGet_some hv
  have hfresh_get : dictGet r.overrule_votes pid = none :=
    dictContains_eq_false_iff.mp hfresh
  have hfresh_keys : pid ∉ dictKeys r.overrule_votes :=
    dictGet_eq_none_iff.mp hfresh_get
  obtain ⟨hndv, hvoters⟩ := hovwf r hcr
  have hnotov : r.overruled = false := by
    cases hb : r.overruled
    · rfl
    · have hcont := hoav hphase r hcr hb pid hpid_mem hjne
      rw [hcont] at hfresh
      cases hfresh
  have hkeys_votes : dictKeys (dictSet r.overrule_votes pid vote) =
      dictKeys r.overrule_votes ++ [pid] :=
    dictKeys_dictSet_fresh _ hfresh_get
  have hndv' : (dictKeys (dictSet r.overrule_votes pid vote)).Nodup := by
    rw [hkeys_votes]
    simp [List.nodup_append, hndv, hfresh_keys]
  have hvoters' : ∀ q ∈ dictKeys (dictSet r.overrule_votes pid vote),
      q ∈ dictKeys g.players ∧ r.judge_id ≠ some q := by
    intro q hq
    rw [hkeys_votes] at hq
    rcases List.mem_append.mp hq with hq1 | hq1
    · exact hvoters q hq1
    · simp only [List.mem_singleton] at hq1
      subst hq1
      exact ⟨hpid_mem, hjne⟩
  rcases hcase with hshape | ⟨j, judge, hj, hjudge, hlen, hshape⟩ <;> subst hshape
  · refine ⟨hnd, hsc, ?_, ?_, ?_, ?_, ?_⟩
    · intro hph r' hr'
      rcases hph with h1 | h1
      · have h2 : g.phase = .ROUND_SUBMISSION := h1
        rw [hphase] at h2
        cases h2
      · have h2 : g.phase = .ROUND_JUDGING := h1
        rw [hphase] at h2
        cases h2
    · intro hph r' hr'
      have hr2 : some
          ({ r with
             overrule_votes := dictSet r.overrule_votes pid vote } : Round) =
            some r' := hr'
      simp only [Option.some.injEq] at hr2
      rw [← hr2]
      intro hjps2 hov2
      exact hjsp hphase r hcr hjps2 hov2
    · intro hph r' hr'
      have hr2 : some
          ({ r with
             overrule_votes := dictSet r.overrule_votes pid vote } : Round) =
            some r' := hr'
      simp only [Option.some.injEq] at hr2
      rw [← hr2]
      intro hov2
      have hov3 : r.overruled = true := hov2
      rw [hnotov] at hov3
      cases hov3
    · intro r' hr'
      have hr2 : some
          ({ r with
             overrule_votes := dictSet r.overrule_votes pid vote } : Round) =
            some r' := hr'
      simp only [Option.some.injEq] at hr2
      rw [← hr2]
      exact ⟨hndv', hvoters'⟩
    · intro hph r' hr'
      have hr2 : some
          ({ r with
             overrule_votes := dictSet r.overrule_votes pid vote } : Round) =
            some r' := hr'
      simp only [Option.some.injEq] at hr2
      rw [← hr2]
      have hne : g.phase ≠ .GAME_OVER := by
        rw [hphase]
        simp
      exact hrnc hne r hcr
  · obtain ⟨jj, judge', hjj, hget, hscore⟩ := hjsp hphase r hcr hjps hnotov
    have hjeq : jj = j := Option.some.inj (hjj.symm.trans hj)
    subst hjeq
    have hjudge_eq : judge' = judge := Option.some.inj (hget.symm.trans hjudge)
    subst hjudge_eq
    have hscore' : (1 : Int) ≤ judge'.score := hscore
    have hkeysP : dictKeys (dictSet g.players jj
        { judge' with score := judge'.score - 1 }) = dictKeys g.players :=
      dictKeys_dictSet_mem _ (mem_keys_of_dictGet_some hjudge)
    refine ⟨nodup_dictKeys_dictSet _ hnd, ?_, ?_, ?_, ?_, ?_, ?_⟩
    · intro kp hkp
      rcases mem_dictSet hkp with hm | he
      · exact hsc kp hm
      · rw [he]
        show (0 : Int) ≤ judge'.score - 1
        omega
    · intro hph r' hr'
      rcases hph with h1 | h1
      · have h2 : g.phase = .ROUND_SUBMISSION := h1
        rw [hphase] at h2
        cases h2
      · have h2 : g.phase = .ROUND_JUDGING := h1
        rw [hphase] at h2
        cases h2
    · intro hph r' hr'
      have hr2 : some
          ({ r with
             overrule_votes := dictSet r.overrule_votes pid vote,
             overruled := true,
             winner_id := none } : Round) = some r' := hr'
      simp only [Option.some.injEq] at hr2
      rw [← hr2]
      intro hjps2 hov2
      have hov3 : true = false := hov2
      cases hov3
    · intro hph r' hr'
      have hr2 : some
          ({ r with
             overrule_votes := dictSet r.overrule_votes pid vote,
             overruled := true,
             winner_id := none } : Round) = some r' := hr'
      simp only [Option.some.injEq] at hr2
      rw [← hr2]
      intro hov2 q hq hqj
      have hq' : q ∈ dictKeys (dictSet g.players jj
          { judge' with score := judge'.score - 1 }) := hq
      rw [hkeysP] at hq'
      have hqj' : r.judge_id ≠ some q := hqj
      show dictContains (dictSet r.overrule_votes pid vote) q = true
      apply dictContains_of_mem_keys
      have hnj_def : get_non_judge_player_ids g =
          (dictKeys g.players).filter (fun x => decide (x ≠ jj)) := by
        simp [get_non_judge_player_ids, hcr, hj]
      have hnj_nodup :
          ((dictKeys g.players).filter (fun x => decide (x ≠ jj))).Nodup :=
        hnd.filter _
      have hsub : ∀ x ∈ dictKeys (dictSet r.overrule_votes pid vote),
          x ∈ (dictKeys g.players).filter (fun x => decide (x ≠ jj)) := by
        intro x hx
        obtain ⟨hx1, hx2⟩ := hvoters' x hx
        rw [List.mem_filter]
        refine ⟨hx1, ?_⟩
        simp only [decide_eq_true_eq]
        intro hxj
        apply hx2
        rw [hxj]
        exact hj
      have hlen' : (dictKeys (dictSet r.overrule_votes pid vote)).length =
          ((dictKeys g.players).filter (fun x => decide (x ≠ jj))).length := by
        rw [dictKeys, List.length_map, hlen, hnj_def]
      have hall := nodup_subset_length_eq hndv' hnj_nodup hsub hlen'
      have hqnej : q ≠ jj := by
        intro hqq
        apply hqj'
        rw [hqq]
        exact hj
      have hqfilter :
          q ∈ (dictKeys g.players).filter (fun x => decide (x ≠ jj)) := by
        rw [List.mem_filter]
        exact ⟨hq', by simp [hqnej]⟩
      exact hall q hqfilter
    · intro r' hr'
      have hr2 : some
          ({ r with
             overrule_votes := dictSet r.overrule_votes pid vote,
             overruled := true,
             winner_id := none } : Round) = some r' := hr'
      simp only [Option.some.injEq] at hr2
      rw [← hr2]
      refine ⟨hndv', ?_⟩
      intro q hq
      obtain ⟨hq1, hq2⟩ := hvoters' q hq
      refine ⟨?_, hq2⟩
      show q ∈ dictKeys (dictSet g.players jj
        { judge' with score := judge'.score - 1 })
      rw [hkeysP]
      exact hq1
    · intro hph r' hr'
      have hr2 : some
          ({ r with
             overrule_votes := dictSet r.overrule_votes pid vote,
             overruled := true,
             winner_id := none } : Round) = some r' := hr'
      simp only [Option.some.injEq] at hr2
      rw [← hr2]
      have hne : g.phase ≠ .GAME_OVER := by
        rw [hphase]
        simp
      exact hrnc hne r hcr

/-! ### Invariant preservation: winner vote, advance, reorder, start -/

theorem determine_ok_inv (x : Game) (g' : Game)
    (h : determine_voted_winner x = .ok g') :
    ∃ r w pw, x.current_round = some r ∧ pluralityWinner r = some w ∧
      dictGet x.players w = some pw ∧
      g' = { x with
             current_round := some { r with winner_id := some w },
             players := dictSet x.players w { pw with score := pw.score + 1 } } := by
  unfold determine_voted_winner at h
  split at h
  · simp at h
  · rename_i r hcr
    split at h
    · simp at h
    · rename_i w hw
      split at h
      · simp at h
      · rename_i pw hpw
        simp only [Except.ok.injEq] at h
        subst h
        exact ⟨r, w, pw, hcr, hw, hpw, rfl⟩

theorem cast_winner_vote_ok_inv (g : Game) (voter wid : String) (g' : Game)
    (h : cast_winner_vote g voter wid = .ok g') :
    ∃ r, g.phase = .ROUND_RESULTS ∧ g.current_round = some r ∧
      r.overruled = true ∧
      (g' = { g with
              current_round :=
                some { r with
                       winner_votes := dictSet r.winner_votes voter wid } } ∨
       ∃ w pw, dictGet g.players w = some pw ∧
         g' = { g with
                current_round :=
                  some { r with
                         winner_votes := dictSet r.winner_votes voter wid,
                         winner_id := some w },
                players := dictSet g.players w { pw with score := pw.score + 1 } }) := by
  unfold cast_winner_vote at h
  split at h
  · simp at h
  · rename_i hphase
    split at h
    · simp at h
    · rename_i r hcr
      split at h
      · simp at h
      · rename_i hov
        split at h
        · simp at h
        · split at h
          · simp at h
          · split at h
            · simp at h
            · split at h
              · simp at h
              · split at h
                · simp at h
                · dsimp only at h
                  split at h
                  · obtain ⟨r2, w, pw, hcr2, hw, hpw, hshape⟩ :=
                      determine_ok_inv _ _ h
                    have hr2 : some
                        ({ r with
                           winner_votes := dictSet r.winner_votes voter wid } :
                          Round) = some r2 := hcr2
                    simp only [Option.some.injEq] at hr2
                    have hpw' : dictGet g.players w = some pw := hpw
                    refine ⟨r, not_ne_iff.mp hphase, hcr, by simpa using hov,
                      Or.inr ⟨w, pw, hpw', ?_⟩⟩
                    rw [← hr2] at hshape
                    exact hshape
                  · simp only [Except.ok.injEq] at h
                    subst h
                    exact ⟨r, not_ne_iff.mp hphase, hcr, by simpa using hov,
                      Or.inl rfl⟩

theorem inv_winner_vote (g : Game) (voter wid : String) (g' : Game)
    (hinv : Inv g) (h : cast_winner_vote g voter wid = .ok g') : Inv g' := by
  obtain ⟨hnd, hsc, hpr, hjsp, hoav, hovwf, hrnc⟩ := hinv
  obtain ⟨r, hphase, hcr, hov, hcase⟩ := cast_winner_vote_ok_inv g voter wid g' h
  obtain ⟨hndv, hvoters⟩ := hovwf r hcr
  rcases hcase with hshape | ⟨w, pw, hpw, hshape⟩ <;> subst hshape
  · refine ⟨hnd, hsc, ?_, ?_, ?_, ?_, ?_⟩
    · intro hph r' hr'
      rcases hph with h1 | h1
      · have h2 : g.phase = .ROUND_SUBMISSION := h1
        rw [hphase] at h2
        cases h2
      · have h2 : g.phase = .ROUND_JUDGING := h1
        rw [hphase] at h2
        cases h2
    · intro hph r' hr'
      have hr2 : some
          ({ r with
             winner_votes := dictSet r.winner_votes voter wid } : Round) =
            some r' := hr'
      simp only [Option.some.injEq] at hr2
      rw [← hr2]
      intro hjps2 hov2
      have hov3 : r.overruled = false := hov2
      rw [hov] at hov3
      cases hov3
    · intro hph r' hr'
      have hr2 : some
          ({ r with
             winner_votes := dictSet r.winner_votes voter wid } : Round) =
            some r' := hr'
      simp only [Option.some.injEq] at hr2
      rw [← hr2]
      intro hov2 q hq hqj
      exact hoav hphase r hcr hov q hq hqj
    · intro r' hr'
      have hr2 : some
          ({ r with
             winner_votes := dictSet r.winner_votes voter wid } : Round) =
            some r' := hr'
      simp only [Option.some.injEq] at hr2
      rw [← hr2]
      exact ⟨hndv, hvoters⟩
    · intro hph r' hr'
      have hr2 : some
          ({ r with
             winner_votes := dictSet r.winner_votes voter wid } : Round) =
            some r' := hr'
      simp only [Option.some.injEq] at hr2
      rw [← hr2]
      have hne : g.phase ≠ .GAME_OVER := by
        rw [hphase]
        simp
      exact hrnc hne r hcr
  · have hkeysP : dictKeys (dictSet g.players w
        { pw with score := pw.score + 1 }) = dictKeys g.players :=
      dictKeys_dictSet_mem _ (mem_keys_of_dictGet_some hpw)
    have hpwscore : (0 : Int) ≤ pw.score := hsc (w, pw) (dictGet_some_mem hpw)
    refine ⟨nodup_dictKeys_dictSet _ hnd, ?_, ?_, ?_, ?_, ?_, ?_⟩
    · intro kp hkp
      rcases mem_dictSet hkp with hm | he
      · exact hsc kp hm
      · rw [he]
        show (0 : Int) ≤ pw.score + 1
        omega
    · intro hph r' hr'
      rcases hph with h1 | h1
      · have h2 : g.phase = .ROUND_SUBMISSION := h1
        rw [hphase] at h2
        cases h2
      · have h2 : g.phase = .ROUND_JUDGING := h1
        rw [hphase] at h2
        cases h2
    · intro hph r' hr'
      have hr2 : some
          ({ r with
             winner_votes := dictSet r.winner_votes voter wid,
             winner_id := some w } : Round) = some r' := hr'
      simp only [Option.some.injEq] at hr2
      rw [← hr2]
      intro hjps2 hov2
      have hov3 : r.overruled = false := hov2
      rw [hov] at hov3
      cases hov3
    · intro hph r' hr'
      have hr2 : some
          ({ r with
             winner_votes := dictSet r.winner_votes voter wid,
             winner_id := some w } : Round) = some r' := hr'
      simp only [Option.some.injEq] at hr2
      rw [← hr2]
      intro hov2 q hq hqj
      have hq' : q ∈ dictKeys (dictSet g.players w
          { pw with score := pw.score + 1 }) := hq
      rw [hkeysP] at hq'
      exact hoav hphase r hcr hov q hq' hqj
    · intro r' hr'
      have hr2 : some
          ({ r with
             winner_votes := dictSet r.winner_votes voter wid,
             winner_id := some w } : Round) = some r' := hr'
      simp only [Option.some.injEq] at hr2
      rw [← hr2]
      refine ⟨hndv, ?_⟩
      intro q hq
      obtain ⟨hq1, hq2⟩ := hvoters q hq
      refine ⟨?_, hq2⟩
      show q ∈ dictKeys (dictSet g.players w { pw with score := pw.score + 1 })
      rw [hkeysP]
      exact hq1
    · intro hph r' hr'
      have hr2 : some
          ({ r with
             winner_votes := dictSet r.winner_votes voter wid,
             winner_id := some w } : Round) = some r' := hr'
      simp only [Option.some.injEq] at hr2
      rw [← hr2]
      have hne : g.phase ≠ .GAME_OVER := by
        rw [hphase]
        simp
      exact hrnc hne r hcr

theorem advance_round_ok_inv (g : Game) (draw : String → List String)
    (pick : Nat) (g' : Game) (h : advance_round g draw pick = .ok g') :
    ∃ r, g.phase = .ROUND_RESULTS ∧ g.current_round = some r ∧
      (g' = { g with
              round_history := g.round_history ++ [r],
              phase := .GAME_OVER } ∨
       g' = start_new_round (replenish_tiles
         { g with round_history := g.round_history ++ [r] } draw) pick) := by
  unfold advance_round at h
  split at h
  · simp at h
  · rename_i hphase
    split at h
    · simp at h
    · rename_i r hcr
      dsimp only at h
      split at h
      · simp only [Except.ok.injEq] at h
        subst h
        exact ⟨r, not_ne_iff.mp hphase, hcr, Or.inl rfl⟩
      · simp only [Except.ok.injEq] at h
        subst h
        exact ⟨r, not_ne_iff.mp hphase, hcr, Or.inr rfl⟩

theorem inv_advance (g : Game) (draw : String → List String) (pick : Nat)
    (g' : Game) (hinv : Inv g) (h : advance_round g draw pick = .ok g') :
    Inv g' := by
  obtain ⟨hnd, hsc, hpr, hjsp, hoav, hovwf, hrnc⟩ := hinv
  obtain ⟨r, hphase, hcr, hcase⟩ := advance_round_ok_inv g draw pick g' h
  rcases hcase with hshape | hshape <;> subst hshape
  · refine ⟨hnd, hsc, ?_, ?_, ?_, ?_, ?_⟩
    · intro hph r' hr'
      rcases hph with h1 | h1 <;> cases h1
    · intro hph
      cases hph
    · intro hph
      cases hph
    · intro r' hr'
      have hr2 : g.current_round = some r' := hr'
      exact hovwf r' hr2
    · intro hph
      exact absurd rfl hph
  · have hnd1 : PlayersNodup { g with round_history := g.round_history ++ [r] } := hnd
    have hsc1 : ScoresNonneg { g with round_history := g.round_history ++ [r] } := hsc
    have hovwf1 : OverruleVotesWF { g with round_history := g.round_history ++ [r] } := by
      intro r' hr'
      exact hovwf r' hr'
    obtain ⟨hnd2, hsc2, hovwf2⟩ := inv_replenish_facts _ draw hnd1 hsc1 hovwf1
    exact inv_start_new_round _ pick hnd2 hsc2 hovwf2

theorem reorder_ok_inv (g : Game) (pid : String) (order : List String)
    (g' : Game) (h : reorder_player_tiles g pid order = .ok g') :
    ∃ p, dictGet g.players pid = some p ∧
      g' = { g with
             players := dictSet g.players pid { p with word_tiles := order } } := by
  unfold reorder_player_tiles at h
  split at h
  · simp at h
  · rename_i p hp
    split at h
    · simp only [Except.ok.injEq] at h
      subst h
      exact ⟨p, hp, rfl⟩
    · simp at h

theorem inv_reorder (g : Game) (pid : String) (order : List String) (g' : Game)
    (hinv : Inv g) (h : reorder_player_tiles g pid order = .ok g') : Inv g' := by
  obtain ⟨hnd, hsc, hpr, hjsp, hoav, hovwf, hrnc⟩ := hinv
  obtain ⟨p, hp, hshape⟩ := reorder_ok_inv g pid order g' h
  subst hshape
  have hkeysP : dictKeys (dictSet g.players pid
      { p with word_tiles := order }) = dictKeys g.players :=
    dictKeys_dictSet_mem _ (mem_keys_of_dictGet_some hp)
  refine ⟨nodup_dictKeys_dictSet _ hnd, ?_, ?_, ?_, ?_, ?_, ?_⟩
  · intro kp hkp
    rcases mem_dictSet hkp with hm | he
    · exact hsc kp hm
    · rw [he]
      exact hsc (pid, p) (dictGet_some_mem hp)
  · intro hph r hr
    exact hpr hph r hr
  · intro hph r hr
    intro hjps2 hov2
    obtain ⟨j, judge, hj, hget, hscore⟩ := hjsp hph r hr hjps2 hov2
    by_cases hjp : pid = j
    · subst hjp
      have hpj : p = judge := Option.some.inj (hp.symm.trans hget)
      refine ⟨pid, { p with word_tiles := order }, hj,
        dictGet_dictSet_self _ _ _, ?_⟩
      show (1 : Int) ≤ p.score
      rw [hpj]
      exact hscore
    · refine ⟨j, judge, hj, ?_, hscore⟩
      show dictGet (dictSet g.players pid { p with word_tiles := order }) j =
        some judge
      rw [dictGet_dictSet_ne _ _ _ _ (fun hh => hjp hh.symm)]
      exact hget
  · intro hph r hr
    intro hov2 q hq hqj
    have hq' : q ∈ dictKeys (dictSet g.players pid
        { p with word_tiles := order }) := hq
    rw [hkeysP] at hq'
    exact hoav hph r hr hov2 q hq' hqj
  · intro r hr
    obtain ⟨hndv, hvs⟩ := hovwf r hr
    refine ⟨hndv, ?_⟩
    intro q hq
    obtain ⟨h1, h2⟩ := hvs q hq
    refine ⟨?_, h2⟩
    show q ∈ dictKeys (dictSet g.players pid { p with word_tiles := order })
    rw [hkeysP]
    exact h1
  · intro hph r hr
    exact hrnc hph r hr

theorem start_game_ok_inv (g : Game) (words : List String)
    (prompts : List Prompt) (draw : String → List String) (pick : Nat)
    (g' : Game) (h : start_game g words prompts draw pick = .ok g') :
    g' = start_new_round
      { distribute_tiles g words draw with prompts_pool := prompts } pick := by
  unfold start_game at h
  split at h
  · simp at h
  · split at h
    · simp at h
    · simp only [Except.ok.injEq] at h
      exact h.symm

theorem inv_start (g : Game) (words : List String) (prompts : List Prompt)
    (draw : String → List String) (pick : Nat) (g' : Game) (hinv : Inv g)
    (h : start_game g words prompts draw pick = .ok g') : Inv g' := by
  rw [start_game_ok_inv g words prompts draw pick g' h]
  obtain ⟨hnd, hsc, _, _, _, hovwf, _⟩ := hinv
  obtain ⟨hnd2, hsc2, hovwf2⟩ := inv_distribute_facts g words draw hnd hsc hovwf
  have hnd3 : PlayersNodup
      { distribute_tiles g words draw with prompts_pool := prompts } := hnd2
  have hsc3 : ScoresNonneg
      { distribute_tiles g words draw with prompts_pool := prompts } := hsc2
  have hovwf3 : OverruleVotesWF
      { distribute_tiles g words draw with prompts_pool := prompts } := by
    intro r hr
    exact hovwf2 r hr
  exact inv_start_new_round _ pick hnd3 hsc3 hovwf3

/-- Every reachable game state satisfies the inductive invariant. -/
theorem reachable_inv (g : Game) (h : Reachable g) : Inv g := by
  induction h with
  | create a b c d e => exact inv_create a b c d e
  | join g new_id nickname gp _ hfresh hok ih =>
      exact inv_join g new_id nickname gp ih hfresh hok
  | start g words prompts draw pick g' _ hok ih =>
      exact inv_start g words prompts draw pick g' ih hok
  | submit g pid tiles now g' _ hok ih =>
      exact inv_submit g pid tiles now g' ih hok
  | judging g g' _ hok ih => exact inv_judging g g' ih hok
  | winner g wid g' _ hok ih => exact inv_winner g wid g' ih hok
  | overruleVote g pid vote g' _ hok ih =>
      exact inv_overrule g pid vote g' ih hok
  | winnerVote g voter wid g' _ hok ih =>
      exact inv_winner_vote g voter wid g' ih hok
  | advance g draw pick g' _ hok ih => exact inv_advance g draw pick g' ih hok
  | restart g g' _ hok ih => exact inv_restart g g' ih.1 hok
  | reorder g pid order g' _ hok ih => exact inv_reorder g pid order g' ih hok

/-! ### Claim C2: round numbering invariant -/

/-- C2 (amended).  In every reachable state whose phase is not
GAME_OVER, an active round is numbered one past the archive:
`current_round.round_number = round_history.length + 1`.  (The phase
restriction is forced: `select_winner` and `advance_round` archive the
final round into `round_history` while keeping `current_round` set, so
in their GAME_OVER states the equality fails.) -/
theorem reachable_round_number (g : Game) (hg : Reachable g)
    (hph : g.phase ≠ .GAME_OVER) (r : Round) (hr : g.current_round = some r) :
    r.round_number = g.round_history.length + 1 :=
  (reachable_inv g hg).2.2.2.2.2.2 hph r hr

/-- Witness for C2's theorem: the reachable two-player game `c2G2`
sits in ROUND_SUBMISSION with round 1 and an empty archive. -/
theorem reachable_round_number_witness :
    (c2G2.current_round.getD default).round_number =
      c2G2.round_history.length + 1 := by
  have h0 : Reachable c2G0 := Reachable.create "game-2" "ABCDEF" "a" "Alice" c2Config
  have h1 : Reachable c2G1 := Reachable.join c2G0 "b" "Bob" c2Join h0 rfl rfl
  have h2 : Reachable c2G2 := Reachable.start c2G1 ["wa"]
    [{ id := "pr1", text := "Prompt" }] (fun _ => ["wa"]) 0 c2G2 h1 rfl
  exact reachable_round_number c2G2 h2 (by decide) _ rfl

/-- C2 counterexample.  A reachable state violating
`current_round.round_number = round_history.length + 1`: with
`points_to_win = 1`, `select_winner` transitions into GAME_OVER while
archiving the round AND keeping `current_round`, leaving round number
1 against a history of length 1. -/
theorem round_number_invariant_refuted :
    ∃ g r, Reachable g ∧ g.current_round = some r ∧
      r.round_number ≠ g.round_history.length + 1 := by
  have h0 : Reachable c2G0 := Reachable.create "game-2" "ABCDEF" "a" "Alice" c2Config
  have h1 : Reachable c2G1 := Reachable.join c2G0 "b" "Bob" c2Join h0 rfl rfl
  have h2 : Reachable c2G2 := Reachable.start c2G1 ["wa"]
    [{ id := "pr1", text := "Prompt" }] (fun _ => ["wa"]) 0 c2G2 h1 rfl
  have h3 : Reachable c2G3 := Reachable.submit c2G2 "b" ["wa"] 0 c2G3 h2 rfl
  have h4 : Reachable c2G4 := Reachable.judging c2G3 c2G4 h3 rfl
  have h5 : Reachable c2G5 := Reachable.winner c2G4 "b" c2G5 h4 rfl
  exact ⟨c2G5, c2G5.current_round.getD default, h5, rfl, by decide⟩

/-! ### Claim C9: scores never go negative -/

/-- C9.  In every reachable game state, every player's score is
non-negative: the only decrement (the unanimous-overrule penalty) is
guarded by `judge_picked_self`, which implies the judge's score was
incremented by `select_winner` in the same round. -/
theorem reachable_scores_nonneg (g : Game) (hg : Reachable g) (k : String)
    (p : Player) (hp : dictGet g.players k = some p) : 0 ≤ p.score :=
  (reachable_inv g hg).2.1 (k, p) (dictGet_some_mem hp)

/-- Witness for C9's theorem at the freshly created game. -/
theorem reachable_scores_nonneg_witness :
    0 ≤ (create_player "h9" "Host" true).score :=
  reachable_scores_nonneg _
    (Reachable.create "g9" "CODE99" "h9" "Host" {}) "h9" _ rfl

end RandomQuotes
